import Mathlib

/-!
Verification development for the springboard Spring '83 relay node
(pkg/springboard: keys.go, board.go, propagation_tracker.go).

The Go code is shallowly embedded: pure fragments become Lean functions,
the HTTP handler `publishBoard` becomes a function from a request and an
environment (repository answers, clock, signature oracle) to the list of
response writes plus the store/propagation effects, and the concurrent
propagation tracker becomes explicit state passing (the relay queue) plus
a step relation (the background-worker lifecycle).
-/

namespace Springboard

/-! ## Bytes and hex (encoding/hex) -/

/-- `hex.DecodeString` digit value: 0-9, a-f, A-F. -/
def hexVal (c : Char) : Option Nat :=
  if '0' ≤ c ∧ c ≤ '9' then some (c.toNat - '0'.toNat)
  else if 'a' ≤ c ∧ c ≤ 'f' then some (c.toNat - 'a'.toNat + 10)
  else if 'A' ≤ c ∧ c ≤ 'F' then some (c.toNat - 'A'.toNat + 10)
  else none

/-- `hex.DecodeString` over a character list: fails on odd length or a
non-hex character, otherwise yields the byte list. -/
def hexDecodeList : List Char → Option (List Nat)
  | [] => some []
  | [_] => none
  | c1 :: c2 :: rest =>
    match hexVal c1, hexVal c2, hexDecodeList rest with
    | some v1, some v2, some bs => some ((16 * v1 + v2) :: bs)
    | _, _, _ => none

def hexDecode (s : String) : Option (List Nat) := hexDecodeList s.toList

def hexDigitChar (n : Nat) : Char :=
  if n < 10 then Char.ofNat ('0'.toNat + n) else Char.ofNat ('a'.toNat + (n - 10))

/-- `fmt.Sprintf "%x"` of a byte slice: lowercase hex. -/
def hexEncode (bs : List Nat) : String :=
  String.mk (bs.foldr (fun b acc => hexDigitChar (b / 16 % 16) :: hexDigitChar (b % 16) :: acc) [])

/-- ASCII bytes of a string (`[]byte(s)` for ASCII strings). -/
def asciiBytes (s : String) : List Nat := s.toList.map Char.toNat

/-- `binary.BigEndian.Uint64`: the first 8 bytes as a big-endian integer. -/
def beUint64 (bs : List Nat) : Nat :=
  (bs.take 8).foldl (fun a b => a * 256 + b) 0

/-! ## Calendar time (the slice of Go `time` the server uses)

Timestamps are normalized UTC calendar values; Go's absolute-time
comparison coincides with lexicographic comparison of the fields, which
`dtEncode` realizes as a monotone injection into `Nat`. -/

structure DateTime where
  year : Nat
  month : Nat
  day : Nat
  hour : Nat
  minute : Nat
  second : Nat
deriving DecidableEq, Repr

def dtEncode (t : DateTime) : Nat :=
  ((((t.year * 13 + t.month) * 32 + t.day) * 24 + t.hour) * 60 + t.minute) * 60 + t.second

/-- `a.Before b` for normalized UTC values. -/
def dtBefore (a b : DateTime) : Bool := dtEncode a < dtEncode b

/-- `a.After b` for normalized UTC values. -/
def dtAfter (a b : DateTime) : Bool := dtEncode b < dtEncode a

def isLeapYear (y : Nat) : Bool := y % 4 = 0 ∧ (y % 100 ≠ 0 ∨ y % 400 = 0)

def daysInMonth (y m : Nat) : Nat :=
  if m = 2 then (if isLeapYear y then 29 else 28)
  else if m = 4 ∨ m = 6 ∨ m = 9 ∨ m = 11 then 30
  else 31

/-- Day-overflow normalization used by Go `time.Date` (spill excess days
into following months); fuel bounds the loop, 4 steps cover any
month-arithmetic overflow arising here. -/
def normDay : Nat → Nat → Nat → Nat → Nat × Nat × Nat
  | 0, y, m, d => (y, m, d)
  | fuel + 1, y, m, d =>
    if d > daysInMonth y m then
      let d2 := d - daysInMonth y m
      if m = 12 then normDay fuel (y + 1) 1 d2 else normDay fuel y (m + 1) d2
    else (y, m, d)

/-- `t.AddDate(years, months, 0)` (normalizing, as Go `time.Date` does). -/
def addDate (t : DateTime) (years months : Nat) : DateTime :=
  let m0 := t.month + months
  let y0 := t.year + years + (m0 - 1) / 12
  let m1 := (m0 - 1) % 12 + 1
  let (y2, m2, d2) := normDay 4 y0 m1 t.day
  { year := y2, month := m2, day := d2, hour := t.hour, minute := t.minute, second := t.second }

def digitVal (c : Char) : Option Nat :=
  if '0' ≤ c ∧ c ≤ '9' then some (c.toNat - '0'.toNat) else none

def twoDigits (c1 c2 : Char) : Option Nat :=
  match digitVal c1, digitVal c2 with
  | some a, some b => some (10 * a + b)
  | _, _ => none

/-- `time.Parse("0206", s)`: two-digit month (01..12, range-checked by
Go's Parse) and two-digit year (00..68 ↦ 20xx, 69..99 ↦ 19xx, Go's
two-digit-year rule); the result is midnight on the first of the month. -/
def parseMMYY (s : String) : Option DateTime :=
  match s.toList with
  | [m1, m2, y1, y2] =>
    match twoDigits m1 m2, twoDigits y1 y2 with
    | some mm, some yy =>
      if 1 ≤ mm ∧ mm ≤ 12 then
        some { year := if yy ≤ 68 then 2000 + yy else 1900 + yy,
               month := mm, day := 1, hour := 0, minute := 0, second := 0 }
      else none
    | _, _ => none
  | _ => none

/-- `time.Parse("2006-01-02T15:04:05Z", s)`: the literal `T` and `Z` of
the layout must match exactly (uppercase); all components are
range-checked as Go's Parse does, including day against month/leap. -/
def parseTimestamp (cs : List Char) : Option DateTime :=
  match cs with
  | [a1, a2, a3, a4, h1, m1, m2, h2, d1, d2, tc, o1, o2, c1, n1, n2, c2, s1, s2, zc] =>
    if h1 = '-' ∧ h2 = '-' ∧ tc = 'T' ∧ c1 = ':' ∧ c2 = ':' ∧ zc = 'Z' then
      match twoDigits a1 a2, twoDigits a3 a4, twoDigits m1 m2, twoDigits d1 d2,
            twoDigits o1 o2, twoDigits n1 n2, twoDigits s1 s2 with
      | some y1, some y2, some mo, some dy, some hh, some mi, some se =>
        let yr := y1 * 100 + y2
        if 1 ≤ mo ∧ mo ≤ 12 ∧ 1 ≤ dy ∧ dy ≤ daysInMonth yr mo ∧ hh ≤ 23 ∧ mi ≤ 59 ∧ se ≤ 59 then
          some { year := yr, month := mo, day := dy, hour := hh, minute := mi, second := se }
        else none
      | _, _, _, _, _, _, _ => none
    else none
  | _ => none

def shortDayNames : List String := ["Mon", "Tue", "Wed", "Thu", "Fri", "Sat", "Sun"]

def shortMonthNames : List String :=
  ["Jan", "Feb", "Mar", "Apr", "May", "Jun", "Jul", "Aug", "Sep", "Oct", "Nov", "Dec"]

def lowerStr (cs : List Char) : List Char := cs.map Char.toLower

def monthIndex (cs : List Char) : Option Nat :=
  (List.range 12).findSome? fun i =>
    if lowerStr cs = lowerStr (shortMonthNames.getD i "").toList then some (i + 1) else none

def isUpperAlpha (c : Char) : Bool := 'A' ≤ c ∧ c ≤ 'Z'

/-- `time.Parse(time.RFC1123, s)` with layout `Mon, 02 Jan 2006 15:04:05 MST`:
case-insensitive named weekday (unchecked against the date, as in Go) and
month, fixed-width numerics, range checks, and an alphabetic zone name
carrying offset 0 (the server always compares the result against UTC
values, matching Go's fabricated zero-offset zone for unknown names). -/
def parseRFC1123 (s : String) : Option DateTime :=
  match s.toList with
  | w1 :: w2 :: w3 :: ',' :: ' ' :: d1 :: d2 :: ' ' :: m1 :: m2 :: m3 :: ' ' ::
    y1 :: y2 :: y3 :: y4 :: ' ' :: h1 :: h2 :: ':' :: n1 :: n2 :: ':' :: s1 :: s2 :: ' ' :: zone =>
    if (shortDayNames.any fun d => lowerStr [w1, w2, w3] = lowerStr d.toList) then
      match twoDigits d1 d2, monthIndex [m1, m2, m3], twoDigits y1 y2, twoDigits y3 y4,
            twoDigits h1 h2, twoDigits n1 n2, twoDigits s1 s2 with
      | some dy, some mo, some c2, some yy, some hh, some mi, some se =>
        let yr := c2 * 100 + yy
        if 1 ≤ dy ∧ dy ≤ daysInMonth yr mo ∧ hh ≤ 23 ∧ mi ≤ 59 ∧ se ≤ 59 ∧
           zone ≠ [] ∧ zone.all isUpperAlpha then
          some { year := yr, month := mo, day := dy, hour := hh, minute := mi, second := se }
        else none
      | _, _, _, _, _, _, _ => none
    else none
  | _ => none

/-! ## The `<time datetime>` tag scanner

Embedding of the regular expression
`(?i)<\s*time\s+datetime\s*=\s*"(\d\d\d\d-\d\d-\d\dT\d\d:\d\d:\d\dZ)"\s*\/?\s*>`
used by `publishBoard` (keys.go).  The pattern is deterministic (each
greedy `\s*`/`\s+` is followed by a non-whitespace terminal), so maximal
munch realizes Go's leftmost-first match. -/

/-- Go regexp `\s`: `[\t\n\f\r ]`. -/
def isWS (c : Char) : Bool :=
  c = ' ' ∨ c = '\t' ∨ c = '\n' ∨ c = '\x0c' ∨ c = '\r'

def skipWS : List Char → List Char
  | c :: rest => if isWS c then skipWS rest else c :: rest
  | [] => []

/-- Case-insensitive literal match (the scanner's letters sit under `(?i)`). -/
def matchCI : List Char → List Char → Option (List Char)
  | [], cs => some cs
  | _, [] => none
  | p :: ps, c :: cs => if c.toLower = p.toLower then matchCI ps cs else none

def isDigitChar (c : Char) : Bool := '0' ≤ c ∧ c ≤ '9'

/-- Capture `\d\d\d\d-\d\d-\d\dT\d\d:\d\d:\d\dZ` (with `T`/`Z`
case-insensitive under `(?i)`), returning the 20 captured characters. -/
def matchStamp (cs : List Char) : Option (List Char × List Char) :=
  match cs with
  | a1 :: a2 :: a3 :: a4 :: h1 :: m1 :: m2 :: h2 :: d1 :: d2 :: tc :: o1 :: o2 :: c1 ::
    n1 :: n2 :: c2 :: s1 :: s2 :: zc :: rest =>
    if isDigitChar a1 ∧ isDigitChar a2 ∧ isDigitChar a3 ∧ isDigitChar a4 ∧ h1 = '-' ∧
       isDigitChar m1 ∧ isDigitChar m2 ∧ h2 = '-' ∧ isDigitChar d1 ∧ isDigitChar d2 ∧
       tc.toLower = 't' ∧ isDigitChar o1 ∧ isDigitChar o2 ∧ c1 = ':' ∧
       isDigitChar n1 ∧ isDigitChar n2 ∧ c2 = ':' ∧ isDigitChar s1 ∧ isDigitChar s2 ∧
       zc.toLower = 'z' then
      some ([a1, a2, a3, a4, h1, m1, m2, h2, d1, d2, tc, o1, o2, c1, n1, n2, c2, s1, s2, zc], rest)
    else none
  | _ => none

/-- Try the whole tag pattern at this position, returning the capture. -/
def matchTimeTagAt (cs : List Char) : Option (List Char) :=
  match cs with
  | '<' :: r1 =>
    match matchCI ['t', 'i', 'm', 'e'] (skipWS r1) with
    | none => none
    | some r2 =>
      match r2 with
      | c :: _ =>
        if isWS c then
          match matchCI ['d', 'a', 't', 'e', 't', 'i', 'm', 'e'] (skipWS r2) with
          | none => none
          | some r3 =>
            match skipWS r3 with
            | '=' :: r4 =>
              match skipWS r4 with
              | '"' :: r5 =>
                match matchStamp r5 with
                | some (cap, r6) =>
                  match r6 with
                  | '"' :: r7 =>
                    match skipWS r7 with
                    | '/' :: r8 =>
                      (match skipWS r8 with | '>' :: _ => some cap | _ => none)
                    | '>' :: _ => some cap
                    | _ => none
                  | _ => none
                | none => none
              | _ => none
            | _ => none
        else none
      | [] => none
  | _ => none

/-- `FindSubmatch`: the capture of the leftmost match, if any. -/
def findTimeTag : List Char → Option (List Char)
  | [] => none
  | c :: rest =>
    match matchTimeTagAt (c :: rest) with
    | some cap => some cap
    | none => findTimeTag rest

/-! ## Board (board.go) and the publish handler (keys.go `publishBoard`) -/

structure Board where
  key : String
  board : String
  modified : DateTime
  signature : String
deriving DecidableEq, Repr

/-- The PUT request as `publishBoard` consumes it: the path after the
leading slash, the first value of each relevant header, and the body
(body reads are modelled as succeeding; its error path writes 500
without returning and is unreachable in this model). -/
structure PutRequest where
  path : String
  ifUnmodifiedSince : Option String
  springSignature : Option String
  via : Option String
  body : String

/-- Environment read by one handler run: the repository's answers, the
difficulty threshold (the `uint64` result of `getDifficulty`, whose
float computation the claims treat abstractly), the Ed25519 oracle,
whether `PublishBoard` succeeds, the peer list, and the clock. -/
structure ServerEnv where
  curBoard : Except Unit (Option Board)
  keyThreshold : Except Unit Nat
  verify : List Nat → String → List Nat → Bool
  putOk : Bool
  federates : List String
  now : DateTime

/-- What a handler run does: the `http.Error` writes in order, the board
handed to `repo.PublishBoard` (if reached and successful), and the
`propagationTracker.Schedule` calls in order. -/
structure HandlerOutput where
  writes : List (Nat × String)
  stored : Option Board
  scheduled : List (Board × String)
deriving DecidableEq, Repr

/-- The reserved test key of the Spring '83 protocol, inlined at
keys.go line 335 as the denylist's only entry. -/
def testKey : String := "fad415fbaa0339c4fd372d8287e50f67905321ccfd9c43fa4c20ac40afed1983"

/-- The denylist of keys.go line 335. -/
def denylist : List String := [testKey]

def msg83e : String :=
  "Signature must end with 83eMMYY. You might be using an old key format. Delete your old key, update your client, and try again."

/-- `strings.TrimPrefix` (over the character list, which coincides with
Go's byte-level operation for the ASCII prefixes used here). -/
def trimPfx (s p : String) : String :=
  if p.toList.isPrefixOf s.toList then String.mk (s.toList.drop p.toList.length) else s

/-- Peer normalization in `propagateBoard`. -/
def normalizeFederate (f : String) : String :=
  trimPfx (trimPfx f "https://") "http://"

/-- `strings.Split(s, sep)` for a one-character separator. -/
def splitOnChar (sep : Char) : List Char → List (List Char)
  | [] => [[]]
  | c :: rest =>
    if c = sep then [] :: splitOnChar sep rest
    else
      match splitOnChar sep rest with
      | [] => [[c]]
      | h :: t => (c :: h) :: t

/-- Via-token extraction of keys.go lines 411-421: the second token when
the first Via value splits on single spaces into exactly two tokens,
otherwise empty (malformed header, only logged). -/
def viaDomainOf : Option String → String
  | none => ""
  | some v =>
    match (splitOnChar ' ' v.toList).map String.mk with
    | [_, t] => t
    | _ => ""

/-- `propagateBoard`: destinations actually passed to `Schedule`, in
federate order, skipping the peer whose normalized URL equals the
inbound Via domain. -/
def propagateDests (federates : List String) (viaDomain : String) : List String :=
  federates.filter (fun f => ¬ (normalizeFederate f = viaDomain))

/-- keys.go 342-424: the 83eMMYY expiry window, body length, time tag,
body staleness and Ed25519 checks, then store and propagate.
`denyWrites` is the (possibly empty) 401 write the denylist loop already
performed without returning. -/
def publishBoardExpiry (req : PutRequest) (env : ServerEnv) (key : List Nat)
    (curBoard : Option Board) (strSignature : String) (hexSignature : List Nat)
    (denyWrites : List (Nat × String)) : HandlerOutput :=
  let keyStr := hexEncode key
  let last4 := String.mk ((keyStr.toList.drop 60).take 4)
  let pre83 := String.mk ((keyStr.toList.drop 57).take 3)
  match parseMMYY last4 with
  | none => ⟨denyWrites ++ [(400, msg83e)], none, []⟩
  | some expiry =>
    if pre83 ≠ "83e" then ⟨denyWrites ++ [(400, msg83e)], none, []⟩
    else if dtAfter env.now (addDate expiry 0 1) then
      ⟨denyWrites ++ [(400, "Key has expired")], none, []⟩
    else if dtAfter expiry (addDate env.now 2 0) then
      ⟨denyWrites ++ [(400, "Key is set to expire more than two years in the future")], none, []⟩
    else if req.body.utf8ByteSize > 2217 then
      ⟨denyWrites ++ [(413, "Payload too large")], none, []⟩
    else
      match findTimeTag req.body.toList with
      | none =>
        ⟨denyWrites ++ [(400, "Missing <time datetime=\"YYYY-MM-DDTHH:MM:SSZ\"> tag")], none, []⟩
      | some maybeDate =>
        match parseTimestamp maybeDate with
        | none =>
          ⟨denyWrites ++ [(400, "Could not parse date " ++ String.mk maybeDate)], none, []⟩
        | some modifiedTime =>
          let oldByBody : Bool :=
            match curBoard with
            | some b => ¬ dtBefore b.modified modifiedTime
            | none => false
          if oldByBody then ⟨denyWrites ++ [(409, "Old content")], none, []⟩
          else if ¬ env.verify key req.body hexSignature then
            ⟨denyWrites ++ [(400, "Invalid signature")], none, []⟩
          else
            let newBoard : Board := ⟨keyStr, req.body, modifiedTime, strSignature⟩
            let stored := if env.putOk then some newBoard else none
            let putWrites :=
              if env.putOk then ([] : List (Nat × String)) else [(500, "Server error")]
            let viaDomain := viaDomainOf req.via
            ⟨denyWrites ++ putWrites, stored,
             (propagateDests env.federates viaDomain).map (fun f => (newBoard, f))⟩

/-- keys.go 308-340: Spring-Signature header shape checks and the
denylist loop, which writes its 401 without returning. -/
def publishBoardSig (req : PutRequest) (env : ServerEnv) (key : List Nat)
    (curBoard : Option Board) : HandlerOutput :=
  match req.springSignature with
  | none => ⟨[(400, "missing Spring-Signature header")], none, []⟩
  | some strSignature =>
    if strSignature.length < 1 then ⟨[(400, "Invalid Signature")], none, []⟩
    else if strSignature.length ≠ 128 then
      ⟨[(400, "Expecting 64-bit signature " ++ strSignature ++ " " ++
          toString strSignature.length)], none, []⟩
    else
      match hexDecode strSignature with
      | none => ⟨[(400, "Unable to decode signature")], none, []⟩
      | some hexSignature =>
        let denyWrites : List (Nat × String) :=
          denylist.foldl (fun w k =>
            if hexSignature = asciiBytes k then w ++ [(401, "Denied")] else w) []
        publishBoardExpiry req env key curBoard strSignature hexSignature denyWrites

/-- keys.go `publishBoard`, lines 245-424, step for step (the tail from
line 308 on lives in `publishBoardSig`/`publishBoardExpiry`).  Response
headers (`Spring-Version`, `Spring-Difficulty`, CORS) are not modelled;
`writes` records each `http.Error` call in order, including the ones the
code performs without returning. -/
def publishBoard (req : PutRequest) (env : ServerEnv) : HandlerOutput :=
  match hexDecode req.path with
  | none => ⟨[(400, "Invalid key")], none, []⟩
  | some key =>
    if key.length = 32 then
      let iusParsed : Option (Option DateTime) :=
        match req.ifUnmodifiedSince with
        | none => some none
        | some h => match parseRFC1123 h with
          | none => none
          | some t => some (some t)
      match iusParsed with
      | none => ⟨[(400, "Invalid format for If-Unmodified-Since header")], none, []⟩
      | some iusOpt =>
        match env.curBoard with
        | .error _ => ⟨[(500, "internal error")], none, []⟩
        | .ok curBoard =>
          let oldByHeader : Bool :=
            match curBoard, iusOpt with
            | some b, some t => ¬ dtBefore b.modified t
            | _, _ => false
          if oldByHeader then ⟨[(409, "Old content")], none, []⟩
          else
            -- threshold check for new keys (keys.go 283-306); in the
            -- success arm of getDifficulty the shadowed err is nil, so
            -- the dead inner guard reduces to the length test
            match curBoard with
            | some _ => publishBoardSig req env key curBoard
            | none =>
              match env.keyThreshold with
              | .error _ => ⟨[(500, "internal error")], none, []⟩
              | .ok keyThreshold =>
                if beUint64 key ≥ keyThreshold then
                  if key.length ≠ 32 then
                    ⟨[(403, "Key greater than threshold")], none, []⟩
                  else publishBoardSig req env key curBoard
                else publishBoardSig req env key curBoard
    else ⟨[(400, "Invalid key")], none, []⟩

/-! ## Relay queue and propagation tracker (propagation_tracker.go)

Go's `relayQueue` holds pointers to `relayInformation` both in the heap
slice and in the lookup map.  The embedding makes the pointers explicit:
`store` maps a pointer (an allocation counter value) to the record,
`arr` is the heap slice of pointers, `lookup` the map.  Time is an
integer count of seconds. -/

def minuteT : Int := 60
def hourT : Int := 3600
/-- The hard-coded 5-minute propagation wait of `Schedule`. -/
def propagateWaitT : Int := 5 * minuteT

structure RelayInfo where
  board : Board
  destination : String
  queuedAt : Int
  nextAttempt : Int
  attempts : Nat
  index : Int
deriving DecidableEq, Repr

/-- `relayInformation.lookupKey()`. -/
def pairOf (i : RelayInfo) : String × String := (i.board.key, i.destination)

structure RQ where
  size : Nat
  store : Nat → RelayInfo
  arr : List Nat
  lookup : String × String → Option Nat

def emptyRelayInfo : RelayInfo := ⟨⟨"", "", ⟨0,0,0,0,0,0⟩, ""⟩, "", 0, 0, 0, 0⟩

def emptyRQ : RQ := ⟨0, fun _ => emptyRelayInfo, [], fun _ => none⟩

/-- `relayQueue.Less i j`. -/
def rqLess (s : RQ) (i j : Nat) : Bool :=
  (s.store (s.arr.getD i 0)).nextAttempt < (s.store (s.arr.getD j 0)).nextAttempt

/-- `relayQueue.Swap i j` (swaps the slice entries and rewrites their
`index` fields). -/
def rqSwap (s : RQ) (i j : Nat) : RQ :=
  let a := s.arr.getD i 0
  let b := s.arr.getD j 0
  { s with
    arr := (s.arr.set i b).set j a,
    store := fun q =>
      if q = b then { s.store b with index := (i : Int) }
      else if q = a then { s.store a with index := (j : Int) }
      else s.store q }

/-- `container/heap.down` (fuel-bounded; the position strictly increases
each iteration, so `n` steps always suffice).  Returns the final
position together with the state. -/
def downAux : Nat → RQ → Nat → Nat → RQ × Nat
  | 0, s, i, _ => (s, i)
  | fuel + 1, s, i, n =>
    let j1 := 2 * i + 1
    if j1 ≥ n then (s, i)
    else
      let j2 := j1 + 1
      let j := if j2 < n ∧ rqLess s j2 j1 then j2 else j1
      if ¬ rqLess s j i then (s, i)
      else downAux fuel (rqSwap s i j) j n

/-- `container/heap.up` (fuel-bounded; the position strictly decreases). -/
def upAux : Nat → RQ → Nat → RQ
  | 0, s, _ => s
  | fuel + 1, s, j =>
    let i := (j - 1) / 2
    if i = j ∨ ¬ rqLess s j i then s
    else upAux fuel (rqSwap s i j) i

/-- `relayQueue.Push` (the interface method): append and index the item.
Go logs when the pair is already present but appends anyway; `Schedule`
and `processQueue` only call it for absent pairs. -/
def rqIfacePush (s : RQ) (item : RelayInfo) : RQ :=
  let n := s.arr.length
  let p := s.size
  { size := p + 1,
    store := fun q => if q = p then { item with index := (n : Int) } else s.store q,
    arr := s.arr ++ [p],
    lookup := fun k => if k = pairOf item then some p else s.lookup k }

/-- `heap.Push`. -/
def heapPush (s : RQ) (item : RelayInfo) : RQ :=
  let s1 := rqIfacePush s item
  upAux s1.arr.length s1 (s1.arr.length - 1)

/-- `relayQueue.Pop` (the interface method): drop the last slice entry,
remove it from the map, mark its index -1, and return it. -/
def rqIfacePop (s : RQ) : RQ × RelayInfo :=
  let p := s.arr.getD (s.arr.length - 1) 0
  let item := { s.store p with index := (-1 : Int) }
  ({ s with
     arr := s.arr.take (s.arr.length - 1),
     store := fun q => if q = p then item else s.store q,
     lookup := fun k => if k = pairOf (s.store p) then none else s.lookup k }, item)

/-- `heap.Pop`: move the head to the end, restore the heap, remove. -/
def heapPop (s : RQ) : RQ × RelayInfo :=
  let n := s.arr.length - 1
  let s1 := rqSwap s 0 n
  let s2 := (downAux n s1 0 n).1
  rqIfacePop s2

/-- `heap.Fix i`. -/
def heapFix (s : RQ) (i : Nat) : RQ :=
  let n := s.arr.length
  let r := downAux n s i n
  if r.2 > i then r.1 else upAux (i + 1) r.1 i

/-- `propagationTracker.Schedule` (the mutex-protected goroutine body,
without the worker spawn, which §PTStep models): upsert of
`(board.Key, server)` rescheduled at `now + 5min`. -/
def schedule (s : RQ) (board : Board) (server : String) (now : Int) : RQ :=
  match s.lookup (board.key, server) with
  | some p =>
    let upd : RelayInfo → RelayInfo := fun it =>
      { it with attempts := 0, board := board, queuedAt := now, nextAttempt := now + propagateWaitT }
    let s1 := { s with store := fun q => if q = p then upd (s.store q) else s.store q }
    heapFix s1 ((s1.store p).index.toNat)
  | none =>
    heapPush s { board := board, destination := server, queuedAt := now,
                 nextAttempt := now + propagateWaitT, attempts := 0, index := 0 }

/-- `pow2` of propagation_tracker.go lines 191-197. -/
def pow2 : Nat → Nat
  | 0 => 1
  | y + 1 => 2 * pow2 y

/-- One iteration of the `processQueue` loop body (lines 163-185) under
the mutex: if the head is due, pop it and post; `postOk` is the outcome
of `PostSignedBoard` and `r` the value drawn by
`rand.Intn(pow2(attempts))` after the increment. -/
def processStep (s : RQ) (now : Int) (postOk : Bool) (r : Nat) : RQ :=
  if s.arr ≠ [] ∧ (s.store (s.arr.getD 0 0)).nextAttempt < now then
    let popped := heapPop s
    let s1 := popped.1
    let nextUp := popped.2
    if postOk then s1
    else
      let a1 := nextUp.attempts + 1
      let jitteredWait := if r < 2 then 2 else r
      let item := { nextUp with attempts := a1, nextAttempt := now + (jitteredWait : Int) * minuteT }
      if item.nextAttempt > nextUp.queuedAt + hourT then s1
      else heapPush s1 item
  else s

/-- The observable content of the queue: the multiset of entries with the
internal heap position erased. -/
def stripInfo (i : RelayInfo) : Board × String × Int × Int × Nat :=
  (i.board, i.destination, i.queuedAt, i.nextAttempt, i.attempts)

def rqObs (s : RQ) : Multiset (Board × String × Int × Int × Nat) :=
  (s.arr.map (fun p => stripInfo (s.store p)) : List _)

/-- Well-formedness tying slice, map, `index` fields and allocation
counter together (the invariants Go's `container/heap` contract and the
tracker's map discipline maintain). -/
structure WFRQ (s : RQ) : Prop where
  nodup : s.arr.Nodup
  fresh : ∀ p ∈ s.arr, p < s.size
  lkArr : ∀ p ∈ s.arr, s.lookup (pairOf (s.store p)) = some p
  arrLk : ∀ k p, s.lookup k = some p → p ∈ s.arr ∧ pairOf (s.store p) = k
  indexOk : ∀ k, k < s.arr.length → (s.store (s.arr.getD k 0)).index = (k : Int)

/-! ### Structural transforms (heap reshuffles)

A heap reshuffle permutes the pointer slice and rewrites `index` fields;
everything observable — allocation counter, lookup map, and every entry
up to its `index` — is untouched. -/

def Structural (s t : RQ) : Prop :=
  t.size = s.size ∧ t.lookup = s.lookup ∧
  (∀ p, stripInfo (t.store p) = stripInfo (s.store p)) ∧ t.arr.Perm s.arr

def boardW : Board := ⟨"wk", "wbody", ⟨2024, 1, 1, 0, 0, 0⟩, "wsig"⟩

def boardC7 : Board := ⟨"k7", "body7", ⟨2024, 1, 1, 0, 0, 0⟩, "sig7"⟩

/-- A queue holding one just-scheduled item for `boardC7`
(queued-at 0, next-attempt 300, attempt-count 0). -/
def queueC7 : RQ := schedule emptyRQ boardC7 "https://peer.example" 0

/-! ### Concrete requests and environments for the handler claims -/

/-- 64 hex chars whose top 8 bytes are `ff..ff` and whose suffix is a key
expiring December 2025. -/
def pathTop : String := "ffffffffffffffff" ++ String.mk (List.replicate 41 'a') ++ "83e1225"

/-- 64 hex chars of `a` padding with the same valid suffix. -/
def pathPlain : String := String.mk (List.replicate 57 'a') ++ "83e1225"

def sigZeros : String := String.mk (List.replicate 128 '0')

def bodyJune : String := "<time datetime=\"2024-06-15T12:00:00Z\">"

def nowJune : DateTime := ⟨2024, 6, 15, 12, 0, 0⟩

def envBase : ServerEnv :=
  { curBoard := .ok none, keyThreshold := .ok (2 ^ 64 - 1),
    verify := fun _ _ _ => true, putOk := true, federates := [], now := nowJune }

def reqTop : PutRequest :=
  { path := pathTop, ifUnmodifiedSince := none, springSignature := some sigZeros,
    via := none, body := bodyJune }

/-! ## Background-worker lifecycle (propagation_tracker.go 116-161)

Each constructor of `PTStep` is one mutex-protected critical section of
the tracker.  `pending` counts goroutines spawned by `go processQueue()`
that have not yet executed the entry guard (lines 145-154); `active`
counts workers past the guard, inside the drain loop (lines 155-188);
`flag` is `bgThreadRunning`; `qlen` the queue length. -/

structure PTState where
  flag : Bool
  qlen : Nat
  pending : Nat
  active : Nat
deriving DecidableEq, Repr

def ptInit : PTState := ⟨false, 0, 0, 0⟩

inductive PTStep : PTState → PTState → Prop
  /-- `Schedule`, fresh-pair branch (lines 127-139): push one item and
  spawn a worker goroutine exactly when `bgThreadRunning` is unset. -/
  | scheduleFresh (s : PTState) :
      PTStep s { s with qlen := s.qlen + 1,
                        pending := if s.flag then s.pending else s.pending + 1 }
  /-- `Schedule`, already-queued branch (lines 120-126): the queue length
  and the worker bookkeeping are untouched. -/
  | scheduleUpdate (s : PTState) (h : 0 < s.qlen) : PTStep s s
  /-- `processQueue` entry guard, flag already set (lines 146-149): the
  second start returns at once. -/
  | guardReject (s : PTState) (h : 0 < s.pending) (hf : s.flag = true) :
      PTStep s { s with pending := s.pending - 1 }
  /-- `processQueue` entry guard, flag clear (lines 150-154): the worker
  sets the flag and enters the loop. -/
  | guardEnter (s : PTState) (h : 0 < s.pending) (hf : s.flag = false) :
      PTStep s { s with pending := s.pending - 1, flag := true, active := s.active + 1 }
  /-- Loop iteration observing an empty queue (lines 157-162): clear the
  flag and exit. -/
  | workerExit (s : PTState) (h : 0 < s.active) (hq : s.qlen = 0) :
      PTStep s { s with active := s.active - 1, flag := false }
  /-- Loop iteration with a non-empty queue (lines 163-185): either the
  head is not due yet or a requeue follows the failed post
  (`requeue = true`, length unchanged), or the popped item is dropped or
  delivered (`requeue = false`, length decreases). -/
  | workerPost (s : PTState) (h : 0 < s.active) (hq : 0 < s.qlen) (requeue : Bool) :
      PTStep s { s with qlen := if requeue then s.qlen else s.qlen - 1 }

def PTReachable (s : PTState) : Prop := Relation.ReflTransGen PTStep ptInit s

/-- The inductive invariant: at most one worker is in the loop, and the
flag is set exactly while one is. -/
def PTInv (s : PTState) : Prop := s.active ≤ 1 ∧ (s.flag = true ↔ s.active = 1)

def reqTestKey : PutRequest :=
  { path := testKey, ifUnmodifiedSince := none, springSignature := some sigZeros,
    via := none, body := bodyJune }

/-- A signature whose 64 decoded bytes coincide with the ASCII bytes of
the denylisted key string: the only way the denylist comparison of
keys.go line 337 can fire. -/
def sigDeny : String := hexEncode (asciiBytes testKey)

def reqDeny : PutRequest :=
  { path := pathPlain, ifUnmodifiedSince := none, springSignature := some sigDeny,
    via := none, body := bodyJune }

def envVerifyFail : ServerEnv := { envBase with verify := fun _ _ _ => false }

/-- The board stored by a first successful PUT of `bodyJune` under
`pathPlain`. -/
def boardStored : Board :=
  ⟨hexEncode ((hexDecode pathPlain).getD []), bodyJune, ⟨2024, 6, 15, 12, 0, 0⟩, sigZeros⟩

def reqPlain : PutRequest :=
  { path := pathPlain, ifUnmodifiedSince := none, springSignature := some sigZeros,
    via := none, body := bodyJune }

def envStored : ServerEnv := { envBase with curBoard := .ok (some boardStored) }

/-- A key whose suffix 83e0120 expired January 2020. -/
def pathOld : String := String.mk (List.replicate 57 'a') ++ "83e0120"

def reqOld : PutRequest :=
  { path := pathOld, ifUnmodifiedSince := none, springSignature := some sigZeros,
    via := none, body := bodyJune }

def envPutFail : ServerEnv :=
  { envBase with putOk := false, federates := ["https://peer-b.example"] }

/-- Claim-side reading of the Via token: the second whitespace-separated
field of the header value. -/
def specViaToken (v : String) : Option String :=
  match (splitOnChar ' ' v.toList).map String.mk |>.filter (fun t => t ≠ "") with
  | _ :: t :: _ => some t
  | _ => none

def reqVia3 : PutRequest :=
  { path := pathPlain, ifUnmodifiedSince := none, springSignature := some sigZeros,
    via := some "Spring/83 peer-a.example x", body := bodyJune }

def envPeerA : ServerEnv := { envBase with federates := ["https://peer-a.example"] }

/-! ### List swap permutation kit -/

theorem set_getD_self (l : List Nat) (i : Nat) (h : i < l.length) :
    l.set i (l.getD i 0) = l := by
  induction l generalizing i with
  | nil => simp at h
  | cons a t ih =>
    cases i with
    | zero => simp [List.set]
    | succ k =>
      simp only [List.length_cons, Nat.succ_lt_succ_iff] at h
      simp only [List.set, List.getD_cons_succ]
      have hk := ih k h
      simp only [List.getD] at hk ⊢
      rw [hk]

theorem set_perm_cons (l : List Nat) (i : Nat) (x : Nat) (h : i < l.length) :
    (l.set i x).Perm (x :: l.eraseIdx i) := by
  induction l generalizing i with
  | nil => simp at h
  | cons a t ih =>
    cases i with
    | zero => simp [List.set]
    | succ k =>
      simp only [List.length_cons, Nat.succ_lt_succ_iff] at h
      simpa [List.set, List.eraseIdx] using ((ih k h).cons a).trans (List.Perm.swap x a _)

theorem getD_cons_eraseIdx_perm (l : List Nat) (i : Nat) (h : i < l.length) :
    (l.getD i 0 :: l.eraseIdx i).Perm l := by
  induction l generalizing i with
  | nil => simp at h
  | cons a t ih =>
    cases i with
    | zero => simp
    | succ k =>
      simp only [List.length_cons, Nat.succ_lt_succ_iff] at h
      simpa [List.getD_cons_succ, List.eraseIdx] using
        (List.Perm.swap a (t.getD k 0) (t.eraseIdx k)).trans ((ih k h).cons a)

theorem swap_perm (l : List Nat) (i j : Nat) (hi : i < l.length) (hj : j < l.length) :
    ((l.set i (l.getD j 0)).set j (l.getD i 0)).Perm l := by
  induction l generalizing i j with
  | nil => simp at hi
  | cons a t ih =>
    cases i with
    | zero =>
      cases j with
      | zero => simp [List.set]
      | succ q =>
        simp only [List.length_cons, Nat.succ_lt_succ_iff] at hj
        simp only [List.getD_cons_succ, List.getD_cons_zero, List.set]
        exact ((set_perm_cons t q a hj).cons (t.getD q 0)).trans
          ((List.Perm.swap a (t.getD q 0) (t.eraseIdx q)).trans
            ((getD_cons_eraseIdx_perm t q hj).cons a))
    | succ p =>
      cases j with
      | zero =>
        simp only [List.length_cons, Nat.succ_lt_succ_iff] at hi
        simp only [List.getD_cons_succ, List.getD_cons_zero, List.set]
        exact ((set_perm_cons t p a hi).cons (t.getD p 0)).trans
          ((List.Perm.swap a (t.getD p 0) (t.eraseIdx p)).trans
            ((getD_cons_eraseIdx_perm t p hi).cons a))
      | succ q =>
        simp only [List.length_cons, Nat.succ_lt_succ_iff] at hi hj
        simpa [List.set, List.getD_cons_succ] using (ih p q hi hj).cons a

theorem nodup_getD_inj (l : List Nat) (hn : l.Nodup) (k1 k2 : Nat)
    (h1 : k1 < l.length) (h2 : k2 < l.length) (h : l.getD k1 0 = l.getD k2 0) : k1 = k2 := by
  rw [List.getD_eq_getElem l 0 h1, List.getD_eq_getElem l 0 h2] at h
  exact (List.Nodup.getElem_inj_iff hn).mp h


theorem structural_refl (s : RQ) : Structural s s :=
  ⟨rfl, rfl, fun _ => rfl, List.Perm.refl _⟩

theorem structural_trans {s t u : RQ} (h1 : Structural s t) (h2 : Structural t u) :
    Structural s u :=
  ⟨h2.1.trans h1.1, h2.2.1.trans h1.2.1,
   fun p => (h2.2.2.1 p).trans (h1.2.2.1 p), h2.2.2.2.trans h1.2.2.2⟩

theorem pairOf_congr {x y : RelayInfo} (h : stripInfo x = stripInfo y) :
    pairOf x = pairOf y := by
  unfold stripInfo at h
  unfold pairOf
  rw [show x.board = y.board from congrArg Prod.fst h,
      show x.destination = y.destination from congrArg (fun z => z.2.1) h]

theorem rqSwap_structural (s : RQ) (i j : Nat)
    (hi : i < s.arr.length) (hj : j < s.arr.length) : Structural s (rqSwap s i j) := by
  refine ⟨rfl, rfl, fun p => ?_, swap_perm s.arr i j hi hj⟩
  unfold rqSwap stripInfo
  dsimp only
  split <;> [skip; split] <;> simp_all

theorem rqSwap_length (s : RQ) (i j : Nat) : (rqSwap s i j).arr.length = s.arr.length := by
  simp [rqSwap]

theorem downAux_structural (fuel : Nat) :
    ∀ (s : RQ) (i n : Nat), n ≤ s.arr.length → Structural s (downAux fuel s i n).1 := by
  induction fuel with
  | zero => intro s i n _; exact structural_refl s
  | succ fuel ih =>
    intro s i n hn
    unfold downAux
    dsimp only
    split
    · exact structural_refl s
    · rename_i hj1
      have hj1n : 2 * i + 1 < n := by omega
      have hin : i < n := by omega
      split <;> rename_i hchoice
      · -- j = 2*i+2
        split
        · exact structural_refl s
        · have hjn : 2 * i + 1 + 1 < n := hchoice.1
          have hsw := rqSwap_structural s i (2 * i + 1 + 1)
            (lt_of_lt_of_le hin hn) (lt_of_lt_of_le hjn hn)
          have hlen : n ≤ (rqSwap s i (2 * i + 1 + 1)).arr.length := by
            rw [rqSwap_length]; exact hn
          exact structural_trans hsw (ih _ _ n hlen)
      · -- j = 2*i+1
        split
        · exact structural_refl s
        · have hsw := rqSwap_structural s i (2 * i + 1)
            (lt_of_lt_of_le hin hn) (lt_of_lt_of_le hj1n hn)
          have hlen : n ≤ (rqSwap s i (2 * i + 1)).arr.length := by
            rw [rqSwap_length]; exact hn
          exact structural_trans hsw (ih _ _ n hlen)

theorem upAux_structural (fuel : Nat) :
    ∀ (s : RQ) (j : Nat), j < s.arr.length → Structural s (upAux fuel s j) := by
  induction fuel with
  | zero => intro s j _; exact structural_refl s
  | succ fuel ih =>
    intro s j hj
    unfold upAux
    dsimp only
    split
    · exact structural_refl s
    · rename_i hcond
      have hij : (j - 1) / 2 ≠ j := fun h => hcond (Or.inl h)
      have hilt : (j - 1) / 2 < j := by omega
      have hsw := rqSwap_structural s ((j - 1) / 2) j (lt_trans hilt hj) hj
      have hlen : (j - 1) / 2 < (rqSwap s ((j - 1) / 2) j).arr.length := by
        rw [rqSwap_length]; exact lt_trans hilt hj
      exact structural_trans hsw (ih (rqSwap s ((j - 1) / 2) j) ((j - 1) / 2) hlen)

theorem heapFix_structural (s : RQ) (i : Nat) (hi : i < s.arr.length) :
    Structural s (heapFix s i) := by
  unfold heapFix
  dsimp only
  have hdown := downAux_structural s.arr.length s i s.arr.length (le_refl _)
  split
  · exact hdown
  · have hlen : i < ((downAux s.arr.length s i s.arr.length).1).arr.length := by
      rw [hdown.2.2.2.length_eq]; exact hi
    exact structural_trans hdown (upAux_structural (i + 1) _ i hlen)

/-! ### Well-formedness preservation -/

theorem getD_set_ne (l : List Nat) (i k x : Nat) (h : i ≠ k) :
    (l.set i x).getD k 0 = l.getD k 0 := by
  simp [List.getD, List.getElem?_set_ne h]

theorem getD_set_self (l : List Nat) (i x : Nat) (h : i < l.length) :
    (l.set i x).getD i 0 = x := by
  simp [List.getD, List.getElem?_set_self, h]

theorem getD_mem (l : List Nat) (k : Nat) (h : k < l.length) : l.getD k 0 ∈ l := by
  rw [List.getD_eq_getElem l 0 h]; exact List.getElem_mem h

theorem mem_pos (l : List Nat) (p : Nat) (h : p ∈ l) :
    ∃ k, k < l.length ∧ l.getD k 0 = p := by
  obtain ⟨k, hk, he⟩ := List.mem_iff_getElem.mp h
  exact ⟨k, hk, by rw [List.getD_eq_getElem l 0 hk]; exact he⟩

theorem rqSwap_wf (s : RQ) (i j : Nat)
    (hi : i < s.arr.length) (hj : j < s.arr.length) (hs : WFRQ s) : WFRQ (rqSwap s i j) := by
  have hst := rqSwap_structural s i j hi hj
  have hperm := hst.2.2.2
  refine ⟨hperm.nodup_iff.mpr hs.nodup, ?_, ?_, ?_, ?_⟩
  · intro p hp
    exact hs.fresh p (hperm.mem_iff.mp hp)
  · intro p hp
    rw [show (rqSwap s i j).lookup = s.lookup from hst.2.1,
        pairOf_congr (hst.2.2.1 p)]
    exact hs.lkArr p (hperm.mem_iff.mp hp)
  · intro k p hk
    rw [show (rqSwap s i j).lookup = s.lookup from hst.2.1] at hk
    obtain ⟨hmem, hpair⟩ := hs.arrLk k p hk
    exact ⟨hperm.mem_iff.mpr hmem, (pairOf_congr (hst.2.2.1 p)).trans hpair⟩
  · -- index correctness
    intro k hk
    have hlen : (rqSwap s i j).arr.length = s.arr.length := rqSwap_length s i j
    rw [hlen] at hk
    unfold rqSwap
    dsimp only
    by_cases hij : i = j
    · subst hij
      have harr : (s.arr.set i (s.arr.getD i 0)).set i (s.arr.getD i 0) = s.arr := by
        rw [List.set_set, set_getD_self s.arr i hi]
      rw [harr]
      by_cases hb : s.arr.getD k 0 = s.arr.getD i 0
      · have : k = i := nodup_getD_inj s.arr hs.nodup k i hk hi hb
        subst this
        simp [hb]
      · simp only [hb, if_neg]
        exact hs.indexOk k hk
    · by_cases hkj : k = j
      · rw [hkj, getD_set_self _ j _ (by simpa using hj)]
        have hab : s.arr.getD i 0 ≠ s.arr.getD j 0 := fun h =>
          hij (nodup_getD_inj s.arr hs.nodup i j hi hj h)
        rw [if_neg hab, if_pos rfl]
      · by_cases hki : k = i
        · rw [hki, getD_set_ne _ j i _ (fun h => hij h.symm), getD_set_self _ i _ hi]
          rw [if_pos rfl]
        · rw [getD_set_ne _ j k _ (fun h => hkj h.symm), getD_set_ne _ i k _ (fun h => hki h.symm)]
          have hqb : s.arr.getD k 0 ≠ s.arr.getD j 0 := fun h =>
            hkj (nodup_getD_inj s.arr hs.nodup k j hk hj h)
          have hqa : s.arr.getD k 0 ≠ s.arr.getD i 0 := fun h =>
            hki (nodup_getD_inj s.arr hs.nodup k i hk hi h)
          rw [if_neg hqb, if_neg hqa]
          exact hs.indexOk k hk

theorem downAux_wf (fuel : Nat) :
    ∀ (s : RQ) (i n : Nat), n ≤ s.arr.length → WFRQ s → WFRQ (downAux fuel s i n).1 := by
  induction fuel with
  | zero => intro s i n _ hs; exact hs
  | succ fuel ih =>
    intro s i n hn hs
    unfold downAux
    dsimp only
    split
    · exact hs
    · rename_i hj1
      have hj1n : 2 * i + 1 < n := by omega
      have hin : i < n := by omega
      split <;> rename_i hchoice
      · split
        · exact hs
        · have hjn : 2 * i + 1 + 1 < n := hchoice.1
          have hsw := rqSwap_wf s i (2 * i + 1 + 1)
            (lt_of_lt_of_le hin hn) (lt_of_lt_of_le hjn hn) hs
          exact ih _ _ n (by rw [rqSwap_length]; exact hn) hsw
      · split
        · exact hs
        · have hsw := rqSwap_wf s i (2 * i + 1)
            (lt_of_lt_of_le hin hn) (lt_of_lt_of_le hj1n hn) hs
          exact ih _ _ n (by rw [rqSwap_length]; exact hn) hsw

theorem upAux_wf (fuel : Nat) :
    ∀ (s : RQ) (j : Nat), j < s.arr.length → WFRQ s → WFRQ (upAux fuel s j) := by
  induction fuel with
  | zero => intro s j _ hs; exact hs
  | succ fuel ih =>
    intro s j hj hs
    unfold upAux
    dsimp only
    split
    · exact hs
    · rename_i hcond
      have hij : (j - 1) / 2 ≠ j := fun h => hcond (Or.inl h)
      have hilt : (j - 1) / 2 < j := by omega
      have hsw := rqSwap_wf s ((j - 1) / 2) j (lt_trans hilt hj) hj hs
      exact ih _ _ (by rw [rqSwap_length]; exact lt_trans hilt hj) hsw

theorem heapFix_wf (s : RQ) (i : Nat) (hi : i < s.arr.length) (hs : WFRQ s) :
    WFRQ (heapFix s i) := by
  unfold heapFix
  dsimp only
  have hdown := downAux_wf s.arr.length s i s.arr.length (le_refl _) hs
  have hst := downAux_structural s.arr.length s i s.arr.length (le_refl _)
  split
  · exact hdown
  · exact upAux_wf (i + 1) _ i (by rw [hst.2.2.2.length_eq]; exact hi) hdown

theorem pairOf_push_item (item : RelayInfo) (n : Int) :
    pairOf { item with index := n } = pairOf item := rfl

theorem rqIfacePush_wf (s : RQ) (item : RelayInfo)
    (hlk : s.lookup (pairOf item) = none) (hs : WFRQ s) : WFRQ (rqIfacePush s item) := by
  have hsz : ∀ p ∈ s.arr, p ≠ s.size := fun p hp => Nat.ne_of_lt (hs.fresh p hp)
  refine ⟨?_, ?_, ?_, ?_, ?_⟩
  · simp only [rqIfacePush, List.nodup_append]
    exact ⟨hs.nodup, List.nodup_singleton _, by
      intro p hp hq
      simp only [List.mem_singleton] at hq
      exact hsz p hp hq⟩
  · intro p hp
    simp only [rqIfacePush, List.mem_append, List.mem_singleton] at hp
    rcases hp with hp | hp
    · exact Nat.lt_succ_of_lt (hs.fresh p hp)
    · subst hp; exact Nat.lt_succ_self _
  · intro p hp
    simp only [rqIfacePush, List.mem_append, List.mem_singleton] at hp
    rcases hp with hp | hp
    · have hne : p ≠ s.size := hsz p hp
      simp only [rqIfacePush, hne, if_neg, if_false]
      have hpair : pairOf (s.store p) ≠ pairOf item := fun h => by
        have := hs.lkArr p hp
        rw [h, hlk] at this
        exact Option.noConfusion this
      simp only [hpair, if_neg, if_false]
      exact hs.lkArr p hp
    · subst hp
      simp [rqIfacePush, pairOf_push_item]
  · intro k p hk
    simp only [rqIfacePush] at hk
    by_cases hkey : k = pairOf item
    · simp only [hkey, if_pos] at hk
      have hp : p = s.size := by injection hk with h; omega
      subst hp
      simp [rqIfacePush, pairOf_push_item, hkey]
    · simp only [hkey, if_neg, if_false] at hk
      obtain ⟨hmem, hpair⟩ := hs.arrLk k p hk
      have hne : p ≠ s.size := hsz p hmem
      refine ⟨by simp [rqIfacePush, hmem], ?_⟩
      simp only [rqIfacePush, hne, if_neg, if_false]
      exact hpair
  · intro k hk
    simp only [rqIfacePush, List.length_append, List.length_singleton] at hk ⊢
    by_cases hkl : k < s.arr.length
    · have hgd : (s.arr ++ [s.size]).getD k 0 = s.arr.getD k 0 := by
        simp [List.getD, List.getElem?_append_left hkl]
      rw [hgd]
      have hmem := getD_mem s.arr k hkl
      have hne : s.arr.getD k 0 ≠ s.size := hsz _ hmem
      simp only [hne, if_neg, if_false]
      exact hs.indexOk k hkl
    · have hkeq : k = s.arr.length := by omega
      subst hkeq
      have hgd : (s.arr ++ [s.size]).getD s.arr.length 0 = s.size := by
        simp [List.getD, List.getElem?_append_right (le_refl s.arr.length)]
      rw [hgd]
      simp

theorem heapPush_wf (s : RQ) (item : RelayInfo)
    (hlk : s.lookup (pairOf item) = none) (hs : WFRQ s) : WFRQ (heapPush s item) := by
  unfold heapPush
  dsimp only
  have h1 := rqIfacePush_wf s item hlk hs
  have hlen : (rqIfacePush s item).arr.length = s.arr.length + 1 := by
    simp [rqIfacePush]
  apply upAux_wf
  · rw [hlen]; omega
  · exact h1

/-- Claimed invariant: at most one live queue entry per
`(board.key, destination)` pair. -/
theorem wf_at_most_one (s : RQ) (hs : WFRQ s) :
    ∀ p ∈ s.arr, ∀ q ∈ s.arr, pairOf (s.store p) = pairOf (s.store q) → p = q := by
  intro p hp q hq hpair
  have h1 := hs.lkArr p hp
  have h2 := hs.lkArr q hq
  rw [hpair] at h1
  rw [h1] at h2
  injection h2

/-! ### Effect characterizations of Push, Schedule -/

theorem strip_fields {x y : RelayInfo} (h : stripInfo x = stripInfo y) :
    x.board = y.board ∧ x.destination = y.destination ∧ x.queuedAt = y.queuedAt ∧
    x.nextAttempt = y.nextAttempt ∧ x.attempts = y.attempts := by
  simp only [stripInfo, Prod.mk.injEq] at h
  exact ⟨h.1, h.2.1, h.2.2.1, h.2.2.2.1, h.2.2.2.2⟩

theorem rqObs_eq_of (t u : RQ) (hperm : t.arr.Perm u.arr)
    (hstrip : ∀ q ∈ t.arr, stripInfo (t.store q) = stripInfo (u.store q)) :
    rqObs t = rqObs u := by
  unfold rqObs
  rw [List.map_congr_left hstrip]
  exact Multiset.coe_eq_coe.mpr (hperm.map _)

theorem heapPush_facts (s : RQ) (item : RelayInfo) :
    (heapPush s item).size = s.size + 1 ∧
    (heapPush s item).lookup = (fun k => if k = pairOf item then some s.size else s.lookup k) ∧
    (∀ p, stripInfo ((heapPush s item).store p) =
      if p = s.size then stripInfo item else stripInfo (s.store p)) ∧
    (heapPush s item).arr.Perm (s.arr ++ [s.size]) := by
  unfold heapPush
  dsimp only
  have hlen : (rqIfacePush s item).arr.length = s.arr.length + 1 := by simp [rqIfacePush]
  have hst := upAux_structural (rqIfacePush s item).arr.length (rqIfacePush s item)
    ((rqIfacePush s item).arr.length - 1) (by rw [hlen]; omega)
  refine ⟨hst.1.trans (by simp [rqIfacePush]), ?_, ?_, ?_⟩
  · rw [hst.2.1]
    rfl
  · intro p
    rw [hst.2.2.1 p]
    by_cases hp : p = s.size
    · subst hp
      simp [rqIfacePush, stripInfo]
    · simp [rqIfacePush, hp, if_neg]
  · exact hst.2.2.2.trans (by rw [show (rqIfacePush s item).arr = s.arr ++ [s.size] from rfl])

/-- The already-queued branch of `Schedule`: in-place field update and
`heap.Fix`, observed through the lookup map and stripped entries. -/
theorem schedule_present (s : RQ) (b : Board) (d : String) (t : Int) (p : Nat)
    (hWF : WFRQ s) (hlk : s.lookup (b.key, d) = some p) :
    (schedule s b d t).size = s.size ∧
    (schedule s b d t).lookup = s.lookup ∧
    (∀ q, stripInfo ((schedule s b d t).store q) =
      if q = p then (b, (s.store p).destination, t, t + propagateWaitT, 0)
      else stripInfo (s.store q)) ∧
    (schedule s b d t).arr.Perm s.arr := by
  have hmem : p ∈ s.arr := (hWF.arrLk _ p hlk).1
  obtain ⟨k0, hk0, hgd⟩ := mem_pos s.arr p hmem
  have hidx : (s.store p).index = (k0 : Int) := by
    have := hWF.indexOk k0 hk0
    rwa [hgd] at this
  unfold schedule
  rw [hlk]
  dsimp only
  set s1 : RQ := { s with store := fun q => if q = p then { s.store q with attempts := 0, board := b, queuedAt := t, nextAttempt := t + propagateWaitT } else s.store q } with hs1
  have hidx1 : (s1.store p).index = (k0 : Int) := by
    rw [hs1]
    simp only [if_pos rfl]
    exact hidx
  have harr1 : s1.arr = s.arr := rfl
  have hk0len : ((s1.store p).index.toNat) < s1.arr.length := by
    rw [hidx1, harr1]
    simpa using hk0
  have hfix := heapFix_structural s1 ((s1.store p).index.toNat) hk0len
  refine ⟨hfix.1, hfix.2.1, ?_, hfix.2.2.2⟩
  intro q
  rw [hfix.2.2.1 q, hs1]
  by_cases hq : q = p
  · subst hq
    simp [stripInfo]
  · simp [hq, if_neg]

/-- The fresh-pair branch of `Schedule`: a `heap.Push` of the new item. -/
theorem schedule_absent (s : RQ) (b : Board) (d : String) (t : Int)
    (hlk : s.lookup (b.key, d) = none) :
    (schedule s b d t).size = s.size + 1 ∧
    (schedule s b d t).lookup =
      (fun k => if k = (b.key, d) then some s.size else s.lookup k) ∧
    (∀ q, stripInfo ((schedule s b d t).store q) =
      if q = s.size then (b, d, t, t + propagateWaitT, 0) else stripInfo (s.store q)) ∧
    (schedule s b d t).arr.Perm (s.arr ++ [s.size]) := by
  unfold schedule
  rw [hlk]
  dsimp only
  exact heapPush_facts s _

theorem schedule_wf (s : RQ) (b : Board) (d : String) (t : Int) (hWF : WFRQ s) :
    WFRQ (schedule s b d t) := by
  unfold schedule
  cases hlk : s.lookup (b.key, d) with
  | none =>
    dsimp only
    apply heapPush_wf
    · exact hlk
    · exact hWF
  | some p =>
    dsimp only
    have hmem : p ∈ s.arr := (hWF.arrLk _ p hlk).1
    obtain ⟨k0, hk0, hgd⟩ := mem_pos s.arr p hmem
    have hidx : (s.store p).index = (k0 : Int) := by
      have := hWF.indexOk k0 hk0
      rwa [hgd] at this
    set s1 : RQ := { s with store := fun q => if q = p then { s.store q with attempts := 0, board := b, queuedAt := t, nextAttempt := t + propagateWaitT } else s.store q } with hs1
    have hstore1 : ∀ q, s1.store q = if q = p then { s.store q with attempts := 0, board := b, queuedAt := t, nextAttempt := t + propagateWaitT } else s.store q := fun _ => rfl
    have hdst : (s.store p).destination = d := congrArg Prod.snd (hWF.arrLk _ p hlk).2
    have hpair1 : pairOf (s1.store p) = (b.key, d) := by
      rw [hstore1 p, if_pos rfl]
      unfold pairOf
      rw [hdst]
    have hWF1 : WFRQ s1 := by
      refine ⟨hWF.nodup, hWF.fresh, ?_, ?_, ?_⟩
      · intro q hq
        by_cases hqp : q = p
        · subst hqp
          rw [show s1.lookup = s.lookup from rfl, hpair1, hlk]
        · rw [hstore1 q, if_neg hqp]
          exact hWF.lkArr q hq
      · intro k q hk
        obtain ⟨hm, hp2⟩ := hWF.arrLk k q hk
        refine ⟨hm, ?_⟩
        by_cases hqp : q = p
        · subst hqp
          rw [hpair1]
          have h3 : pairOf (s.store q) = (b.key, d) := (hWF.arrLk _ q hlk).2
          rw [← hp2, h3]
        · rw [hstore1 q, if_neg hqp]
          exact hp2
      · intro k hk
        have harr : s1.arr = s.arr := rfl
        rw [harr] at hk ⊢
        rw [hstore1 (s.arr.getD k 0)]
        by_cases hqp : s.arr.getD k 0 = p
        · rw [if_pos hqp]
          exact hWF.indexOk k hk
        · rw [if_neg hqp]
          exact hWF.indexOk k hk
    have hidx1 : (s1.store p).index = (k0 : Int) := by
      rw [hstore1 p, if_pos rfl]
      exact hidx
    apply heapFix_wf
    · rw [hidx1]
      simpa using hk0
    · exact hWF1

/-! ### Effect characterization of Pop -/

theorem rqSwap_getD_out (s : RQ) (i j k : Nat) (hik : i ≠ k) (hjk : j ≠ k) :
    (rqSwap s i j).arr.getD k 0 = s.arr.getD k 0 := by
  unfold rqSwap
  dsimp only
  rw [getD_set_ne _ j k _ hjk, getD_set_ne _ i k _ hik]

theorem downAux_getD_hi (fuel : Nat) :
    ∀ (s : RQ) (i n k : Nat), n ≤ k →
      (downAux fuel s i n).1.arr.getD k 0 = s.arr.getD k 0 := by
  induction fuel with
  | zero => intro s i n k _; rfl
  | succ fuel ih =>
    intro s i n k hnk
    unfold downAux
    dsimp only
    split
    · rfl
    · rename_i hj1
      have hin : i < n := by omega
      have hik : i ≠ k := by omega
      split <;> rename_i hchoice
      · split
        · rfl
        · have hjk : 2 * i + 1 + 1 ≠ k := by
            have := hchoice.1
            omega
          rw [ih _ _ n k hnk, rqSwap_getD_out s i _ k hik hjk]
      · split
        · rfl
        · have hjk : 2 * i + 1 ≠ k := by omega
          rw [ih _ _ n k hnk, rqSwap_getD_out s i _ k hik hjk]

theorem getD_take (l : List Nat) (n k : Nat) (hk : k < n) :
    (l.take n).getD k 0 = l.getD k 0 := by
  simp [List.getD, List.getElem?_take, hk]

/-- `heap.Pop` on a well-formed non-empty queue: it removes exactly the
head entry — the returned record carries the head's observable fields,
the head's pair leaves the map, and every remaining slice entry is an
original non-head entry with unchanged observable fields. -/
theorem heapPop_facts (s : RQ) (hWF : WFRQ s) (hne : s.arr ≠ []) :
    stripInfo (heapPop s).2 = stripInfo (s.store (s.arr.getD 0 0)) ∧
    (heapPop s).1.size = s.size ∧
    (heapPop s).1.lookup =
      (fun k => if k = pairOf (s.store (s.arr.getD 0 0)) then none else s.lookup k) ∧
    (∀ q ∈ (heapPop s).1.arr, q ∈ s.arr ∧ q ≠ s.arr.getD 0 0 ∧
        stripInfo ((heapPop s).1.store q) = stripInfo (s.store q)) ∧
    (heapPop s).1.arr.length = s.arr.length - 1 := by
  have hlen0 : 0 < s.arr.length := List.length_pos.mpr hne
  unfold heapPop
  dsimp only
  set m := s.arr.length - 1 with hm
  set sA := rqSwap s 0 m with hsA
  set sB := (downAux m sA 0 m).1 with hsB
  have hmlt : m < s.arr.length := by omega
  have hstA : Structural s sA := rqSwap_structural s 0 m hlen0 hmlt
  have hlenA : m ≤ sA.arr.length := by
    rw [hstA.2.2.2.length_eq]; omega
  have hstB : Structural sA sB := downAux_structural m sA 0 m hlenA
  have hst : Structural s sB := structural_trans hstA hstB
  have hWFB : WFRQ sB := downAux_wf m sA 0 m hlenA (rqSwap_wf s 0 m hlen0 hmlt hWF)
  have hlenB : sB.arr.length = s.arr.length := hst.2.2.2.length_eq
  -- the last slice entry of sB is the original head pointer
  have hheadA : sA.arr.getD m 0 = s.arr.getD 0 0 := by
    rw [hsA]
    unfold rqSwap
    dsimp only
    rw [getD_set_self _ m _ (by simpa using hmlt)]
  have hlast : sB.arr.getD m 0 = s.arr.getD 0 0 := by
    rw [hsB, downAux_getD_hi m sA 0 m m (le_refl m), hheadA]
  set p0 := s.arr.getD 0 0 with hp0
  have hlastB : sB.arr.getD (sB.arr.length - 1) 0 = p0 := by
    rw [hlenB, ← hm, hlast]
  have hstripB : stripInfo (sB.store p0) = stripInfo (s.store p0) := hst.2.2.1 p0
  have hpairB : pairOf (sB.store p0) = pairOf (s.store p0) := pairOf_congr hstripB
  refine ⟨?_, ?_, ?_, ?_, ?_⟩
  · show stripInfo { sB.store (sB.arr.getD (sB.arr.length - 1) 0) with index := (-1 : Int) } = _
    rw [hlastB]
    exact hstripB
  · exact hst.1
  · show (fun k => if k = pairOf (sB.store (sB.arr.getD (sB.arr.length - 1) 0)) then none
        else sB.lookup k) = _
    rw [hlastB, hpairB, hst.2.1]
  · intro q hq
    have hqtake : q ∈ sB.arr.take (sB.arr.length - 1) := hq
    have hqB : q ∈ sB.arr := List.mem_of_mem_take hqtake
    have hqs : q ∈ s.arr := hst.2.2.2.mem_iff.mp hqB
    have hqne : q ≠ p0 := by
      intro hqe
      obtain ⟨k, hk, hgd⟩ := mem_pos _ q hqtake
      rw [List.length_take] at hk
      have hklen : k < sB.arr.length - 1 := lt_of_lt_of_le hk (Nat.min_le_left _ _)
      rw [getD_take _ _ _ hklen] at hgd
      have hkeq : k = sB.arr.length - 1 :=
        nodup_getD_inj sB.arr hWFB.nodup k (sB.arr.length - 1) (by omega) (by omega)
          (by rw [hgd, hqe, hlastB])
      omega
    refine ⟨hqs, hqne, ?_⟩
    show stripInfo (if q = sB.arr.getD (sB.arr.length - 1) 0 then _ else sB.store q) = _
    rw [hlastB, if_neg hqne]
    exact hst.2.2.1 q
  · show (sB.arr.take (sB.arr.length - 1)).length = s.arr.length - 1
    rw [List.length_take, hlenB]
    omega

/-! ### Claim C6 -/

/-- C6: `Schedule` is a deduplicating upsert.  On any well-formed queue:
(a) at most one live entry exists per `(board.key, destination)` pair
after a schedule; (b) two successive schedules of the same board and
destination leave the queue in the same observable state (stripped-entry
multiset) as the single later one; (c) scheduling a pair already queued
keeps the queue length, keeps the entry's identity, overwrites its board,
resets its attempt count to 0 and reschedules it at now + propagate-wait
(the tracker's hard-coded 5 minutes) instead of inserting a second
entry. -/
theorem c6_upsert_dedup_idempotent (s : RQ) (b : Board) (d : String) (t1 t2 : Int)
    (hWF : WFRQ s) :
    (∀ p ∈ (schedule s b d t2).arr, ∀ q ∈ (schedule s b d t2).arr,
        pairOf ((schedule s b d t2).store p) = pairOf ((schedule s b d t2).store q) → p = q) ∧
    rqObs (schedule (schedule s b d t1) b d t2) = rqObs (schedule s b d t2) ∧
    (schedule (schedule s b d t1) b d t2).arr.length = (schedule s b d t2).arr.length ∧
    (∀ p, s.lookup (b.key, d) = some p →
        (schedule s b d t2).arr.length = s.arr.length ∧
        (schedule s b d t2).lookup (b.key, d) = some p ∧
        stripInfo ((schedule s b d t2).store p) =
          (b, (s.store p).destination, t2, t2 + propagateWaitT, 0)) := by
  have hWF2 := schedule_wf s b d t2 hWF
  have hWF1 := schedule_wf s b d t1 hWF
  have hmain : rqObs (schedule (schedule s b d t1) b d t2) = rqObs (schedule s b d t2) ∧
      (schedule (schedule s b d t1) b d t2).arr.length = (schedule s b d t2).arr.length := by
    cases hlk : s.lookup (b.key, d) with
    | some p =>
      have hP1 := schedule_present s b d t1 p hWF hlk
      have hlk1 : (schedule s b d t1).lookup (b.key, d) = some p := by
        rw [hP1.2.1]; exact hlk
      have hP2 := schedule_present s b d t2 p hWF hlk
      have hPL := schedule_present (schedule s b d t1) b d t2 p hWF1 hlk1
      have hdst : ((schedule s b d t1).store p).destination = (s.store p).destination := by
        have h1 := hP1.2.2.1 p
        rw [if_pos rfl] at h1
        exact congrArg (fun z => z.2.1) h1
      have hperm : (schedule (schedule s b d t1) b d t2).arr.Perm (schedule s b d t2).arr :=
        (hPL.2.2.2.trans hP1.2.2.2).trans hP2.2.2.2.symm
      refine ⟨rqObs_eq_of _ _ hperm ?_, hperm.length_eq⟩
      intro q _
      rw [hPL.2.2.1 q, hP2.2.2.1 q]
      by_cases hq : q = p
      · rw [if_pos hq, if_pos hq, hdst]
      · rw [if_neg hq, if_neg hq]
        have h1 := hP1.2.2.1 q
        rw [if_neg hq] at h1
        exact h1
    | none =>
      have hA1 := schedule_absent s b d t1 hlk
      have hlk1 : (schedule s b d t1).lookup (b.key, d) = some s.size := by
        rw [hA1.2.1]; simp
      have hA2 := schedule_absent s b d t2 hlk
      have hPL := schedule_present (schedule s b d t1) b d t2 s.size hWF1 hlk1
      have hdst : ((schedule s b d t1).store s.size).destination = d := by
        have h1 := hA1.2.2.1 s.size
        rw [if_pos rfl] at h1
        exact congrArg (fun z => z.2.1) h1
      have hsz1 : (schedule s b d t1).size = s.size + 1 := hA1.1
      have hperm : (schedule (schedule s b d t1) b d t2).arr.Perm (schedule s b d t2).arr :=
        (hPL.2.2.2.trans hA1.2.2.2).trans hA2.2.2.2.symm
      refine ⟨rqObs_eq_of _ _ hperm ?_, hperm.length_eq⟩
      intro q hq
      rw [hPL.2.2.1 q, hA2.2.2.1 q]
      by_cases hqs : q = s.size
      · rw [if_pos hqs, if_pos hqs, hdst]
      · rw [if_neg hqs, if_neg hqs]
        have h1 := hA1.2.2.1 q
        rw [if_neg hqs] at h1
        exact h1
  refine ⟨wf_at_most_one _ hWF2, hmain.1, hmain.2, ?_⟩
  intro p hlk
  have hP2 := schedule_present s b d t2 p hWF hlk
  refine ⟨hP2.2.2.2.length_eq, ?_, ?_⟩
  · rw [hP2.2.1]; exact hlk
  · rw [hP2.2.2.1 p, if_pos rfl]


theorem wfrq_empty : WFRQ emptyRQ := by
  refine ⟨List.nodup_nil, ?_, ?_, ?_, ?_⟩
  · intro p hp; simp [emptyRQ] at hp
  · intro p hp; simp [emptyRQ] at hp
  · intro k p hk; simp [emptyRQ] at hk
  · intro k hk; simp [emptyRQ] at hk

theorem c6_upsert_dedup_idempotent_witness :
    rqObs (schedule (schedule emptyRQ boardW "https://peer.example" 0)
        boardW "https://peer.example" 7) =
      rqObs (schedule emptyRQ boardW "https://peer.example" 7) :=
  (c6_upsert_dedup_idempotent emptyRQ boardW "https://peer.example" 0 7 wfrq_empty).2.1

/-! ### Claim C7 -/

theorem pow2_eq (n : Nat) : pow2 n = 2 ^ n := by
  induction n with
  | zero => rfl
  | succ k ih => rw [pow2, ih, pow_succ]; ring

/-- C7 (amended): when posting the due head item fails, its attempt
count is incremented, the drawn value `r < 2^attempts` is clamped below
at 2 — so the wait is `max 2 r` minutes, lying in `[2, 2^attempts)` when
`attempts ≥ 2` and equal to 2 on the first retry — the new next-attempt
is now + wait, and the item is re-inserted (same pair, same queued-at)
unless next-attempt exceeds queued-at + 1 hour, in which case it is
dropped: its pair is absent from the queue. -/
theorem c7_retry_backoff (s : RQ) (now : Int) (r : Nat) (hWF : WFRQ s) (hne : s.arr ≠ [])
    (hdue : (s.store (s.arr.getD 0 0)).nextAttempt < now)
    (hr : r < pow2 ((s.store (s.arr.getD 0 0)).attempts + 1)) :
    2 ≤ (if r < 2 then 2 else r) ∧
    (2 ≤ (s.store (s.arr.getD 0 0)).attempts + 1 →
      (if r < 2 then 2 else r) < pow2 ((s.store (s.arr.getD 0 0)).attempts + 1)) ∧
    ((s.store (s.arr.getD 0 0)).attempts = 0 → (if r < 2 then 2 else r) = 2) ∧
    (now + (((if r < 2 then 2 else r) : Nat) : Int) * minuteT >
        (s.store (s.arr.getD 0 0)).queuedAt + hourT →
      (processStep s now false r).lookup (pairOf (s.store (s.arr.getD 0 0))) = none ∧
      ∀ q ∈ (processStep s now false r).arr,
        pairOf ((processStep s now false r).store q) ≠ pairOf (s.store (s.arr.getD 0 0))) ∧
    (¬ (now + (((if r < 2 then 2 else r) : Nat) : Int) * minuteT >
        (s.store (s.arr.getD 0 0)).queuedAt + hourT) →
      (processStep s now false r).lookup (pairOf (s.store (s.arr.getD 0 0))) = some s.size ∧
      stripInfo ((processStep s now false r).store s.size) =
        ((s.store (s.arr.getD 0 0)).board, (s.store (s.arr.getD 0 0)).destination,
         (s.store (s.arr.getD 0 0)).queuedAt,
         now + (((if r < 2 then 2 else r) : Nat) : Int) * minuteT,
         (s.store (s.arr.getD 0 0)).attempts + 1)) := by
  have hlen0 : 0 < s.arr.length := List.length_pos.mpr hne
  have hp0mem : s.arr.getD 0 0 ∈ s.arr := getD_mem s.arr 0 hlen0
  have hpopf := heapPop_facts s hWF hne
  obtain ⟨hb, hdst, hqa, hna, hat⟩ := strip_fields hpopf.1
  refine ⟨?_, ?_, ?_, ?_, ?_⟩
  · split <;> omega
  · intro h2
    split
    · calc (2 : Nat) < 2 ^ 2 := by norm_num
        _ ≤ 2 ^ ((s.store (s.arr.getD 0 0)).attempts + 1) := Nat.pow_le_pow_right (by norm_num) h2
        _ = pow2 _ := (pow2_eq _).symm
    · exact hr
  · intro h0
    rw [h0] at hr
    simp only [pow2] at hr
    have hr2 : r < 2 := by omega
    rw [if_pos hr2]
  · -- drop branch
    intro hdrop
    unfold processStep
    rw [if_pos (⟨hne, hdue⟩ : s.arr ≠ [] ∧ (s.store (s.arr.getD 0 0)).nextAttempt < now)]
    dsimp only
    simp only [Bool.false_eq_true, if_false]
    rw [hat, hqa, if_pos hdrop]
    constructor
    · rw [hpopf.2.2.1]
      simp
    · intro q hq
      obtain ⟨hqs, hqne, hqstrip⟩ := hpopf.2.2.2.1 q hq
      rw [pairOf_congr hqstrip]
      intro hpair
      exact hqne (wf_at_most_one s hWF q hqs _ hp0mem hpair)
  · -- requeue branch
    intro hkeep
    unfold processStep
    rw [if_pos (⟨hne, hdue⟩ : s.arr ≠ [] ∧ (s.store (s.arr.getD 0 0)).nextAttempt < now)]
    dsimp only
    simp only [Bool.false_eq_true, if_false]
    rw [hat, hqa, if_neg hkeep]
    set item : RelayInfo := { board := (heapPop s).2.board, destination := (heapPop s).2.destination, queuedAt := (s.store (s.arr.getD 0 0)).queuedAt, nextAttempt := now + (((if r < 2 then 2 else r) : Nat) : Int) * minuteT, attempts := (s.store (s.arr.getD 0 0)).attempts + 1, index := (heapPop s).2.index } with hitem
    have hpush := heapPush_facts (heapPop s).1 item
    have hpairitem : pairOf item = pairOf (s.store (s.arr.getD 0 0)) := by
      have h2 : pairOf item = pairOf (heapPop s).2 := rfl
      rw [h2]
      exact pairOf_congr hpopf.1
    constructor
    · rw [hpush.2.1]
      dsimp only
      rw [← hpairitem, if_pos rfl, hpopf.2.1]
    · rw [hpush.2.2.1 s.size, if_pos hpopf.2.1.symm]
      show ((heapPop s).2.board, (heapPop s).2.destination, (s.store (s.arr.getD 0 0)).queuedAt,
        now + (((if r < 2 then 2 else r) : Nat) : Int) * minuteT,
        (s.store (s.arr.getD 0 0)).attempts + 1) = _
      rw [hb, hdst]


/-- C7 counterexample: on the first failed post the claim's wait
interval `[2, 2^attempt-count)` is empty — `attempt-count` becomes 1 and
`pow2 1 = 2` — yet the code retries after exactly 2 minutes: at
`now = 301` with draw `r = 0` the item is re-queued with attempt count 1
and next-attempt `421 = 301 + 2 * 60`, and `2 ∉ [2, pow2 1)`. -/
theorem c7_wait_interval_counterexample :
    ((processStep queueC7 301 false 0).lookup ("k7", "https://peer.example")).map
        (fun p => stripInfo ((processStep queueC7 301 false 0).store p)) =
      some (boardC7, "https://peer.example", 0, 421, 1) ∧
    Finset.Ico 2 (pow2 1) = ∅ := by
  constructor
  · rfl
  · decide

theorem c7_retry_backoff_witness :
    (processStep queueC7 301 false 0).lookup
        (pairOf (queueC7.store (queueC7.arr.getD 0 0))) = some queueC7.size ∧
    stripInfo ((processStep queueC7 301 false 0).store queueC7.size) =
      ((queueC7.store (queueC7.arr.getD 0 0)).board,
       (queueC7.store (queueC7.arr.getD 0 0)).destination,
       (queueC7.store (queueC7.arr.getD 0 0)).queuedAt,
       301 + (((if (0 : Nat) < 2 then 2 else 0) : Nat) : Int) * minuteT,
       (queueC7.store (queueC7.arr.getD 0 0)).attempts + 1) :=
  (c7_retry_backoff queueC7 301 0
      (schedule_wf emptyRQ boardC7 "https://peer.example" 0 wfrq_empty)
      (by decide) (by decide) (by decide)).2.2.2.2 (by decide)


/-! ### Claim C1 -/

theorem denyWrites_mem (hexSignature : List Nat) :
    ∀ x ∈ denylist.foldl (fun w k =>
        if hexSignature = asciiBytes k then w ++ [(401, "Denied")] else w)
      ([] : List (Nat × String)), x = (401, "Denied") := by
  intro x hx
  simp only [denylist, List.foldl] at hx
  split at hx <;> simp_all

theorem expiry_no403 (req : PutRequest) (env : ServerEnv) (key : List Nat)
    (curBoard : Option Board) (strSignature : String) (hexSignature : List Nat)
    (denyWrites : List (Nat × String))
    (hdw : (403, "Key greater than threshold") ∉ denyWrites) :
    (403, "Key greater than threshold") ∉
      (publishBoardExpiry req env key curBoard strSignature hexSignature denyWrites).writes := by
  intro hmem
  unfold publishBoardExpiry at hmem
  dsimp only at hmem
  repeat' split at hmem
  all_goals simp at hmem
  all_goals exact hdw hmem

theorem sig_no403 (req : PutRequest) (env : ServerEnv) (key : List Nat)
    (curBoard : Option Board) :
    (403, "Key greater than threshold") ∉
      (publishBoardSig req env key curBoard).writes := by
  intro hmem
  unfold publishBoardSig at hmem
  dsimp only at hmem
  repeat' split at hmem
  all_goals try simp at hmem
  all_goals
    revert hmem
    apply expiry_no403
    intro hdw
    have h2 := denyWrites_mem _ _ hdw
    simp at h2

set_option maxRecDepth 4096 in
set_option maxHeartbeats 1000000 in
/-- C1: the difficulty-threshold rejection is dead code.  No run of
`publishBoard` ever writes 403 "Key greater than threshold" (the guard
`err != nil || len(key) != 32` at keys.go 300-304 is always false
there), and a PUT for a fresh key whose top 8 big-endian bytes are
maximal — hence not below the threshold `2^64 - 1` — passes the check
and is stored. -/
theorem c1_threshold_dead :
    (∀ (req : PutRequest) (env : ServerEnv),
        (publishBoard req env).writes.count (403, "Key greater than threshold") = 0) ∧
    beUint64 ((hexDecode pathTop).getD []) ≥ 2 ^ 64 - 1 ∧
    (publishBoard reqTop envBase).writes = [] ∧
    (publishBoard reqTop envBase).stored =
      some ⟨hexEncode ((hexDecode pathTop).getD []), bodyJune, ⟨2024, 6, 15, 12, 0, 0⟩, sigZeros⟩ := by
  refine ⟨?_, by decide, rfl, rfl⟩
  intro req env
  rw [List.count_eq_zero]
  intro hmem
  unfold publishBoard at hmem
  dsimp only at hmem
  repeat' split at hmem
  all_goals try omega
  all_goals try exact sig_no403 req env _ _ hmem
  all_goals simp at hmem


theorem ptInv_init : PTInv ptInit := by
  constructor
  · exact Nat.zero_le 1
  · constructor
    · intro h; exact absurd h (by simp [ptInit])
    · intro h; exact absurd h (by simp [ptInit])

theorem ptInv_step {s t : PTState} (hs : PTInv s) (hstep : PTStep s t) : PTInv t := by
  obtain ⟨h1, h2⟩ := hs
  cases hstep with
  | scheduleFresh => exact ⟨h1, h2⟩
  | scheduleUpdate h => exact ⟨h1, h2⟩
  | guardReject h hf => exact ⟨h1, h2⟩
  | guardEnter h hf =>
    have hz : s.active = 0 := by
      rcases Nat.lt_or_ge s.active 1 with h3 | h3
      · omega
      · have h4 : s.active = 1 := by omega
        exact absurd (h2.mpr h4) (by rw [hf]; simp)
    constructor
    · simp [hz]
    · simp [hz]
  | workerExit h hq =>
    have h4 : s.active = 1 := by omega
    constructor
    · simp
      omega
    · constructor
      · intro hcontra; exact absurd hcontra (by simp)
      · intro hcontra
        simp only [h4] at hcontra
        simp at hcontra
  | workerPost h hq requeue => exact ⟨h1, h2⟩

theorem ptInv_reachable (s : PTState) (h : PTReachable s) : PTInv s := by
  induction h with
  | refl => exact ptInv_init
  | tail _ hstep ih => exact ptInv_step ih hstep

/-! ### Claim C8 -/

/-- C8: at most one background propagation worker runs at any time.  In
every reachable tracker state at most one worker is inside the drain
loop; a worker enters the loop only from a state where `bgThreadRunning`
is unset (so no worker was running); a second concurrently spawned start
leaves the worker count untouched (it returns at the guard); the worker
count drops only in a step that observes the queue empty, and whenever a
worker observes the queue empty the exit step is the enabled worker
step. -/
theorem c8_single_worker :
    (∀ s : PTState, PTReachable s → s.active ≤ 1) ∧
    (∀ s t : PTState, PTStep s t → s.active < t.active →
        s.flag = false ∧ PTReachable s → s.active = 0) ∧
    (∀ s t : PTState, PTStep s t → s.active < t.active → s.flag = false) ∧
    (∀ s t : PTState, PTStep s t → t.active < s.active → s.qlen = 0 ∧ t.flag = false) ∧
    (∀ s : PTState, 0 < s.active → s.qlen = 0 →
        PTStep s { s with active := s.active - 1, flag := false }) := by
  refine ⟨?_, ?_, ?_, ?_, ?_⟩
  · intro s h
    exact (ptInv_reachable s h).1
  · intro s t hstep hlt hr
    have hinv := ptInv_reachable s hr.2
    rcases Nat.eq_zero_or_pos s.active with h0 | hpos
    · exact h0
    · have hle : s.active ≤ 1 := hinv.1
      have h1 : s.active = 1 := by omega
      exact absurd (hinv.2.mpr h1) (by rw [hr.1]; simp)
  · intro s t hstep hlt
    cases hstep with
    | scheduleFresh => dsimp only at hlt; omega
    | scheduleUpdate h => omega
    | guardReject h hf => dsimp only at hlt; omega
    | guardEnter h hf => exact hf
    | workerExit h hq => dsimp only at hlt; omega
    | workerPost h hq requeue => dsimp only at hlt; omega
  · intro s t hstep hlt
    cases hstep with
    | scheduleFresh => dsimp only at hlt; omega
    | scheduleUpdate h => omega
    | guardReject h hf => dsimp only at hlt; omega
    | guardEnter h hf => dsimp only at hlt; omega
    | workerExit h hq => exact ⟨hq, rfl⟩
    | workerPost h hq requeue => dsimp only at hlt; omega
  · intro s ha hq
    exact PTStep.workerExit s ha hq

theorem c8_single_worker_witness :
    ptInit.active ≤ 1 ∧
    PTStep ⟨true, 0, 0, 1⟩ { flag := false, qlen := 0, pending := 0, active := 0 } :=
  ⟨c8_single_worker.1 ptInit Relation.ReflTransGen.refl,
   c8_single_worker.2.2.2.2 ⟨true, 0, 0, 1⟩ (by norm_num) rfl⟩

/-! ### Claim C2 -/


set_option maxRecDepth 8192 in
/-- C2: a PUT for the reserved test key is not answered 401 "Denied".
The denylist loop compares the decoded signature bytes — here 64 zero
bytes — against the ASCII bytes of the denylisted key string, so it
never fires for this request; the request falls through and is rejected
400 by the 83eMMYY suffix check instead (this key's hex characters
57..59 are "fed").  It is not stored. -/
theorem c2_testkey_not_denied :
    (publishBoard reqTestKey envBase).writes = [(400, msg83e)] ∧
    (publishBoard reqTestKey envBase).writes.count (401, "Denied") = 0 ∧
    (publishBoard reqTestKey envBase).stored = none := by
  refine ⟨rfl, ?_, rfl⟩
  rw [show (publishBoard reqTestKey envBase).writes = [(400, msg83e)] from rfl]
  decide

/-! ### Claim C3 -/


set_option maxRecDepth 8192 in
/-- C3: a failing denylist check does not short-circuit, and Ed25519
verification runs even though a non-cryptographic check failed.  On a
request whose signature bytes match the denylist entry, the handler
writes 401 "Denied" and continues: with a rejecting signature oracle it
goes on to write 400 "Invalid signature", and with an accepting oracle
it stores the board — the outcome still depends on the signature check
that the claimed short-circuit order would never have reached. -/
theorem c3_denylist_no_shortcircuit :
    (publishBoard reqDeny envVerifyFail).writes =
      [(401, "Denied"), (400, "Invalid signature")] ∧
    (publishBoard reqDeny envBase).writes = [(401, "Denied")] ∧
    (publishBoard reqDeny envBase).stored =
      some ⟨hexEncode ((hexDecode pathPlain).getD []), bodyJune,
            ⟨2024, 6, 15, 12, 0, 0⟩, sigDeny⟩ :=
  ⟨rfl, rfl, rfl⟩

/-! ### Reduction lemmas through the admission pipeline -/

/-- A PUT for a key with a stored board reduces to the signature stage:
valid 64-hex path, and an If-Unmodified-Since header that is absent or
parses to a time strictly after the stored board's. -/
theorem publishBoard_some (req : PutRequest) (env : ServerEnv) (key : List Nat) (b : Board)
    (hk : hexDecode req.path = some key) (hk32 : key.length = 32)
    (hIUS : req.ifUnmodifiedSince = none ∨
      ∃ hs t, req.ifUnmodifiedSince = some hs ∧ parseRFC1123 hs = some t ∧
        dtBefore b.modified t = true)
    (hcur : env.curBoard = Except.ok (some b)) :
    publishBoard req env = publishBoardSig req env key (some b) := by
  unfold publishBoard
  rw [hk]
  dsimp only
  rw [if_pos hk32]
  rcases hIUS with hius | ⟨hs, t, hh, hp, hbt⟩
  · rw [hius, hcur]
    dsimp only
    rw [if_neg (by simp)]
  · rw [hh]
    dsimp only
    rw [hp, hcur]
    dsimp only
    rw [if_neg (by simp [hbt])]

/-- A PUT for a fresh key reduces to the signature stage: valid 64-hex
path, absent or parsable If-Unmodified-Since header, no stored board,
and any successfully computed threshold (the 403 rejection is dead). -/
theorem publishBoard_none (req : PutRequest) (env : ServerEnv) (key : List Nat)
    (hk : hexDecode req.path = some key) (hk32 : key.length = 32)
    (hius : req.ifUnmodifiedSince = none)
    (hcur : env.curBoard = Except.ok none)
    (hthr : ∃ thr, env.keyThreshold = Except.ok thr) :
    publishBoard req env = publishBoardSig req env key none := by
  obtain ⟨thr, hthr⟩ := hthr
  unfold publishBoard
  rw [hk]
  dsimp only
  rw [if_pos hk32, hius, hcur]
  dsimp only
  rw [hthr]
  dsimp only
  by_cases hge : beUint64 key ≥ thr
  · rw [if_pos hge, if_neg (by omega : ¬ key.length ≠ 32), if_neg (by simp)]
  · rw [if_neg hge, if_neg (by simp)]

/-- The signature stage reduces to the expiry stage when the
Spring-Signature header is well-formed and its bytes miss the denylist
(so the 401 write does not occur). -/
theorem publishBoardSig_eq (req : PutRequest) (env : ServerEnv) (key : List Nat)
    (curBoard : Option Board) (sg : String) (sigBytes : List Nat)
    (hsig : req.springSignature = some sg) (h128 : sg.length = 128)
    (hdec : hexDecode sg = some sigBytes) (hden : sigBytes ≠ asciiBytes testKey) :
    publishBoardSig req env key curBoard =
      publishBoardExpiry req env key curBoard sg sigBytes [] := by
  unfold publishBoardSig
  rw [hsig]
  dsimp only
  rw [if_neg (by omega : ¬ sg.length < 1), if_neg (by omega : ¬ sg.length ≠ 128), hdec]
  dsimp only
  simp only [denylist, List.foldl, if_neg hden]

/-- Outcome of the expiry stage when the key suffix fails the 83eMMYY
shape check. -/
theorem publishBoardExpiry_suffix_fail (req : PutRequest) (env : ServerEnv) (key : List Nat)
    (curBoard : Option Board) (sg : String) (sigBytes : List Nat) (dw : List (Nat × String))
    (hfail : parseMMYY (String.mk (((hexEncode key).toList.drop 60).take 4)) = none ∨
      String.mk (((hexEncode key).toList.drop 57).take 3) ≠ "83e") :
    publishBoardExpiry req env key curBoard sg sigBytes dw =
      ⟨dw ++ [(400, msg83e)], none, []⟩ := by
  unfold publishBoardExpiry
  dsimp only
  rcases hfail with hmm | h83
  · rw [hmm]
  · cases hp : parseMMYY (String.mk (((hexEncode key).toList.drop 60).take 4)) with
    | none => rfl
    | some expiry =>
      dsimp only
      rw [if_pos h83]

/-- Outcome of the expiry stage when the key has expired: suffix fine,
but now is after expiry + 1 month. -/
theorem publishBoardExpiry_expired (req : PutRequest) (env : ServerEnv) (key : List Nat)
    (curBoard : Option Board) (sg : String) (sigBytes : List Nat) (dw : List (Nat × String))
    (expiry : DateTime)
    (hmm : parseMMYY (String.mk (((hexEncode key).toList.drop 60).take 4)) = some expiry)
    (h83 : String.mk (((hexEncode key).toList.drop 57).take 3) = "83e")
    (hexp : dtAfter env.now (addDate expiry 0 1) = true) :
    publishBoardExpiry req env key curBoard sg sigBytes dw =
      ⟨dw ++ [(400, "Key has expired")], none, []⟩ := by
  unfold publishBoardExpiry
  dsimp only
  rw [hmm]
  dsimp only
  simp only [String.toList] at h83
  rw [if_neg (by simp [h83]), if_pos (by simp [hexp])]

/-- Outcome of the expiry stage when the key expires more than two years
in the future. -/
theorem publishBoardExpiry_future (req : PutRequest) (env : ServerEnv) (key : List Nat)
    (curBoard : Option Board) (sg : String) (sigBytes : List Nat) (dw : List (Nat × String))
    (expiry : DateTime)
    (hmm : parseMMYY (String.mk (((hexEncode key).toList.drop 60).take 4)) = some expiry)
    (h83 : String.mk (((hexEncode key).toList.drop 57).take 3) = "83e")
    (hnexp : dtAfter env.now (addDate expiry 0 1) = false)
    (hfut : dtAfter expiry (addDate env.now 2 0) = true) :
    publishBoardExpiry req env key curBoard sg sigBytes dw =
      ⟨dw ++ [(400, "Key is set to expire more than two years in the future")], none, []⟩ := by
  unfold publishBoardExpiry
  dsimp only
  rw [hmm]
  dsimp only
  simp only [String.toList] at h83
  rw [if_neg (by simp [h83]), if_neg (by simp [hnexp]), if_pos (by simp [hfut])]

/-- Outcome of the expiry stage at the body-staleness check: a stored
board at least as new as the body timestamp yields 409 "Old content",
nothing is stored and nothing is scheduled. -/
theorem publishBoardExpiry_old_content (req : PutRequest) (env : ServerEnv) (key : List Nat)
    (b : Board) (sg : String) (sigBytes : List Nat) (dw : List (Nat × String))
    (expiry bodyTime : DateTime) (cap : List Char)
    (hmm : parseMMYY (String.mk (((hexEncode key).toList.drop 60).take 4)) = some expiry)
    (h83 : String.mk (((hexEncode key).toList.drop 57).take 3) = "83e")
    (hnexp : dtAfter env.now (addDate expiry 0 1) = false)
    (hnfut : dtAfter expiry (addDate env.now 2 0) = false)
    (hblen : req.body.utf8ByteSize ≤ 2217)
    (htag : findTimeTag req.body.toList = some cap)
    (hts : parseTimestamp cap = some bodyTime)
    (hstale : dtBefore b.modified bodyTime = false) :
    publishBoardExpiry req env key (some b) sg sigBytes dw =
      ⟨dw ++ [(409, "Old content")], none, []⟩ := by
  unfold publishBoardExpiry
  dsimp only
  rw [hmm]
  dsimp only
  simp only [String.toList] at h83
  rw [if_neg (by simp [h83]), if_neg (by simp [hnexp]), if_neg (by simp [hnfut]),
      if_neg (by omega : ¬ req.body.utf8ByteSize > 2217), htag]
  dsimp only
  rw [hts]
  dsimp only
  rw [if_pos (by simp [hstale])]

/-- Outcome of the expiry stage for an accepted fresh-key PUT: the board
is handed to the repository (recorded when the put succeeds, with a 500
write when it fails) and propagation is scheduled for every
non-suppressed peer. -/
theorem publishBoardExpiry_accept (req : PutRequest) (env : ServerEnv) (key : List Nat)
    (sg : String) (sigBytes : List Nat) (dw : List (Nat × String))
    (expiry bodyTime : DateTime) (cap : List Char)
    (hmm : parseMMYY (String.mk (((hexEncode key).toList.drop 60).take 4)) = some expiry)
    (h83 : String.mk (((hexEncode key).toList.drop 57).take 3) = "83e")
    (hnexp : dtAfter env.now (addDate expiry 0 1) = false)
    (hnfut : dtAfter expiry (addDate env.now 2 0) = false)
    (hblen : req.body.utf8ByteSize ≤ 2217)
    (htag : findTimeTag req.body.toList = some cap)
    (hts : parseTimestamp cap = some bodyTime)
    (hverify : env.verify key req.body sigBytes = true) :
    publishBoardExpiry req env key none sg sigBytes dw =
      ⟨dw ++ (if env.putOk then [] else [(500, "Server error")]),
       if env.putOk then some ⟨hexEncode key, req.body, bodyTime, sg⟩ else none,
       (propagateDests env.federates (viaDomainOf req.via)).map
         (fun f => (⟨hexEncode key, req.body, bodyTime, sg⟩, f))⟩ := by
  unfold publishBoardExpiry
  dsimp only
  rw [hmm]
  dsimp only
  simp only [String.toList] at h83
  rw [if_neg (by simp [h83]), if_neg (by simp [hnexp]), if_neg (by simp [hnfut]),
      if_neg (by omega : ¬ req.body.utf8ByteSize > 2217), htag]
  dsimp only
  rw [hts]
  dsimp only
  rw [if_neg (by simp), if_neg (by simp [hverify])]

/-! ### Claim C4 -/

/-- C4: body-time precedence.  For a PUT that reaches the body-staleness
check — valid key with a stored board, acceptable If-Unmodified-Since,
well-formed non-denylisted signature, valid unexpired suffix, body
within bounds carrying a parsable time tag — if the stored board's
modified time is not before the body's timestamp (in particular a second
PUT with the same body timestamp), the handler answers exactly
409 "Old content", stores nothing and schedules nothing. -/
theorem c4_old_content (req : PutRequest) (env : ServerEnv) (key : List Nat) (b : Board)
    (sg : String) (sigBytes : List Nat) (expiry bodyTime : DateTime) (cap : List Char)
    (hk : hexDecode req.path = some key) (hk32 : key.length = 32)
    (hIUS : req.ifUnmodifiedSince = none ∨
      ∃ hs t, req.ifUnmodifiedSince = some hs ∧ parseRFC1123 hs = some t ∧
        dtBefore b.modified t = true)
    (hcur : env.curBoard = Except.ok (some b))
    (hsig : req.springSignature = some sg) (h128 : sg.length = 128)
    (hdec : hexDecode sg = some sigBytes) (hden : sigBytes ≠ asciiBytes testKey)
    (hmm : parseMMYY (String.mk (((hexEncode key).toList.drop 60).take 4)) = some expiry)
    (h83 : String.mk (((hexEncode key).toList.drop 57).take 3) = "83e")
    (hnexp : dtAfter env.now (addDate expiry 0 1) = false)
    (hnfut : dtAfter expiry (addDate env.now 2 0) = false)
    (hblen : req.body.utf8ByteSize ≤ 2217)
    (htag : findTimeTag req.body.toList = some cap)
    (hts : parseTimestamp cap = some bodyTime)
    (hstale : dtBefore b.modified bodyTime = false) :
    publishBoard req env = ⟨[(409, "Old content")], none, []⟩ := by
  rw [publishBoard_some req env key b hk hk32 hIUS hcur,
      publishBoardSig_eq req env key (some b) sg sigBytes hsig h128 hdec hden,
      publishBoardExpiry_old_content req env key b sg sigBytes [] expiry bodyTime cap
        hmm h83 hnexp hnfut hblen htag hts hstale]
  rfl


set_option maxRecDepth 8192 in
theorem c4_old_content_witness :
    publishBoard reqPlain envStored = ⟨[(409, "Old content")], none, []⟩ :=
  c4_old_content reqPlain envStored ((hexDecode pathPlain).getD []) boardStored
    sigZeros ((hexDecode sigZeros).getD []) ⟨2025, 12, 1, 0, 0, 0⟩ ⟨2024, 6, 15, 12, 0, 0⟩
    "2024-06-15T12:00:00Z".toList
    (by decide) (by decide) (Or.inl rfl) rfl rfl (by decide) (by decide) (by decide)
    (by decide) (by decide) (by decide) (by decide) (by decide) (by decide) (by decide)
    (by decide)

/-! ### Claim C5 -/

/-- C5: the 83eMMYY expiry rules.  For a fresh-key PUT that reaches the
suffix check (valid path, plain headers, well-formed non-denylisted
signature): (a) if hex characters 57..59 of the key differ from "83e" or
characters 60..63 fail to parse as MMYY, the handler answers 400 with
the 83eMMYY message; (b) if the suffix parses to the first day of its
month and now is after expiry + 1 month, it answers exactly
400 "Key has expired"; (c) if not expired but the expiry lies more than
two years past now, it answers 400 with the too-far-future message.
Nothing is stored in any of these cases. -/
theorem c5_expiry_rules (req : PutRequest) (env : ServerEnv) (key : List Nat)
    (sg : String) (sigBytes : List Nat)
    (hk : hexDecode req.path = some key) (hk32 : key.length = 32)
    (hius : req.ifUnmodifiedSince = none)
    (hcur : env.curBoard = Except.ok none)
    (hthr : ∃ thr, env.keyThreshold = Except.ok thr)
    (hsig : req.springSignature = some sg) (h128 : sg.length = 128)
    (hdec : hexDecode sg = some sigBytes) (hden : sigBytes ≠ asciiBytes testKey) :
    ((parseMMYY (String.mk (((hexEncode key).toList.drop 60).take 4)) = none ∨
        String.mk (((hexEncode key).toList.drop 57).take 3) ≠ "83e") →
      publishBoard req env = ⟨[(400, msg83e)], none, []⟩) ∧
    (∀ expiry : DateTime,
      parseMMYY (String.mk (((hexEncode key).toList.drop 60).take 4)) = some expiry →
      String.mk (((hexEncode key).toList.drop 57).take 3) = "83e" →
      dtAfter env.now (addDate expiry 0 1) = true →
      publishBoard req env = ⟨[(400, "Key has expired")], none, []⟩) ∧
    (∀ expiry : DateTime,
      parseMMYY (String.mk (((hexEncode key).toList.drop 60).take 4)) = some expiry →
      String.mk (((hexEncode key).toList.drop 57).take 3) = "83e" →
      dtAfter env.now (addDate expiry 0 1) = false →
      dtAfter expiry (addDate env.now 2 0) = true →
      publishBoard req env =
        ⟨[(400, "Key is set to expire more than two years in the future")], none, []⟩) := by
  have hred : publishBoard req env = publishBoardExpiry req env key none sg sigBytes [] := by
    rw [publishBoard_none req env key hk hk32 hius hcur hthr,
        publishBoardSig_eq req env key none sg sigBytes hsig h128 hdec hden]
  refine ⟨?_, ?_, ?_⟩
  · intro hfail
    rw [hred, publishBoardExpiry_suffix_fail req env key none sg sigBytes [] hfail]
    rfl
  · intro expiry hmm h83 hexp
    rw [hred, publishBoardExpiry_expired req env key none sg sigBytes [] expiry hmm h83 hexp]
    rfl
  · intro expiry hmm h83 hnexp hfut
    rw [hred, publishBoardExpiry_future req env key none sg sigBytes [] expiry hmm h83 hnexp hfut]
    rfl


set_option maxRecDepth 8192 in
theorem c5_expiry_rules_witness :
    publishBoard reqOld envBase = ⟨[(400, "Key has expired")], none, []⟩ :=
  (c5_expiry_rules reqOld envBase ((hexDecode pathOld).getD []) sigZeros
      ((hexDecode sigZeros).getD []) (by decide) (by decide) rfl rfl ⟨2 ^ 64 - 1, rfl⟩
      rfl (by decide) (by decide) (by decide)).2.1
    ⟨2020, 1, 1, 0, 0, 0⟩ (by decide) (by decide) (by decide)

/-! ### Claim C10 -/

/-- C10: a failing repository write does not stop the handler.  For a
fresh-key PUT passing every admission check whose `PublishBoard` call
fails, the handler writes exactly 500 "Server error", the board is not
stored, and yet the Via header is still consulted and propagation of the
never-stored board is scheduled to every non-suppressed peer. -/
theorem c10_put_failure_still_propagates (req : PutRequest) (env : ServerEnv)
    (key : List Nat) (sg : String) (sigBytes : List Nat)
    (expiry bodyTime : DateTime) (cap : List Char)
    (hk : hexDecode req.path = some key) (hk32 : key.length = 32)
    (hius : req.ifUnmodifiedSince = none)
    (hcur : env.curBoard = Except.ok none)
    (hthr : ∃ thr, env.keyThreshold = Except.ok thr)
    (hsig : req.springSignature = some sg) (h128 : sg.length = 128)
    (hdec : hexDecode sg = some sigBytes) (hden : sigBytes ≠ asciiBytes testKey)
    (hmm : parseMMYY (String.mk (((hexEncode key).toList.drop 60).take 4)) = some expiry)
    (h83 : String.mk (((hexEncode key).toList.drop 57).take 3) = "83e")
    (hnexp : dtAfter env.now (addDate expiry 0 1) = false)
    (hnfut : dtAfter expiry (addDate env.now 2 0) = false)
    (hblen : req.body.utf8ByteSize ≤ 2217)
    (htag : findTimeTag req.body.toList = some cap)
    (hts : parseTimestamp cap = some bodyTime)
    (hverify : env.verify key req.body sigBytes = true)
    (hput : env.putOk = false) :
    publishBoard req env =
      ⟨[(500, "Server error")], none,
       (propagateDests env.federates (viaDomainOf req.via)).map
         (fun f => (⟨hexEncode key, req.body, bodyTime, sg⟩, f))⟩ := by
  rw [publishBoard_none req env key hk hk32 hius hcur hthr,
      publishBoardSig_eq req env key none sg sigBytes hsig h128 hdec hden,
      publishBoardExpiry_accept req env key sg sigBytes [] expiry bodyTime cap
        hmm h83 hnexp hnfut hblen htag hts hverify, hput]
  rfl


set_option maxRecDepth 8192 in
theorem c10_put_failure_still_propagates_witness :
    publishBoard reqPlain envPutFail =
      ⟨[(500, "Server error")], none,
       [(⟨hexEncode ((hexDecode pathPlain).getD []), bodyJune, ⟨2024, 6, 15, 12, 0, 0⟩, sigZeros⟩,
         "https://peer-b.example")]⟩ := by
  have h := c10_put_failure_still_propagates reqPlain envPutFail ((hexDecode pathPlain).getD [])
    sigZeros ((hexDecode sigZeros).getD []) ⟨2025, 12, 1, 0, 0, 0⟩ ⟨2024, 6, 15, 12, 0, 0⟩
    "2024-06-15T12:00:00Z".toList
    (by decide) (by decide) rfl rfl ⟨2 ^ 64 - 1, rfl⟩ rfl (by decide) (by decide)
    (by decide) (by decide) (by decide) (by decide) (by decide) (by decide) (by decide)
    (by decide) rfl rfl
  rw [h]
  decide

/-! ### Claim C9 -/


set_option maxRecDepth 8192 in
/-- C9 counterexample: with header `Via: Spring/83 peer-a.example x` the
second whitespace-separated field is `peer-a.example`, and the sole
configured peer normalizes to exactly that token — so the claim predicts
its suppression — yet the handler schedules a relay item for it: the
code only suppresses when the header splits into exactly two
space-separated tokens. -/
theorem c9_via_counterexample :
    specViaToken "Spring/83 peer-a.example x" = some "peer-a.example" ∧
    normalizeFederate "https://peer-a.example" = "peer-a.example" ∧
    (publishBoard reqVia3 envPeerA).scheduled.map (fun z => z.2) =
      ["https://peer-a.example"] := by
  refine ⟨by decide, by decide, by decide⟩

set_option maxRecDepth 8192 in
/-- C9 (amended): after a successful admission, exactly one relay item
is scheduled per configured peer except peers whose URL, stripped of a
leading http:// or https:// prefix, equals the code's Via domain — the
second token when the first Via header value splits on single spaces
into exactly two tokens, and no suppression otherwise.  On the spec's
example (peers peer-a and peer-b, `Via: Spring/83 peer-a.example`)
exactly one item is scheduled, for https://peer-b.example. -/
theorem c9_loop_suppression (federates : List String) (vd : String) (f : String)
    (hnd : federates.Nodup) (hf : f ∈ federates) :
    ((propagateDests federates vd).count f =
      if normalizeFederate f = vd then 0 else 1) ∧
    propagateDests ["https://peer-a.example", "https://peer-b.example"]
      (viaDomainOf (some "Spring/83 peer-a.example")) = ["https://peer-b.example"] ∧
    viaDomainOf (some "Spring/83 peer-a.example x") = "" := by
  refine ⟨?_, by decide, by decide⟩
  unfold propagateDests
  by_cases hsup : normalizeFederate f = vd
  · rw [if_pos hsup, List.count_eq_zero]
    intro hmem
    have h2 := List.of_mem_filter hmem
    simp [hsup] at h2
  · rw [if_neg hsup, List.count_filter (by simp [hsup]), List.count_eq_one_of_mem hnd hf]

set_option maxRecDepth 8192 in
theorem c9_loop_suppression_witness :
    (propagateDests ["https://peer-a.example", "https://peer-b.example"]
        "peer-a.example").count "https://peer-b.example" =
      (if normalizeFederate "https://peer-b.example" = "peer-a.example" then 0 else 1) :=
  (c9_loop_suppression ["https://peer-a.example", "https://peer-b.example"]
    "peer-a.example" "https://peer-b.example" (by decide) (by decide)).1

end Springboard
